import Mathlib

/-
  Verification development for the visualweb-scraper repository
  (src/webscraper_v7.py and src/visualscraper_v2.py).

  The Python source is shallowly embedded below.  Pure string and list
  processing is translated to executable Lean functions.  External
  collaborators (the HTTP transport, the langdetect library, the sklearn
  k-means routine, the Neocities API) are modelled as explicit oracle
  parameters, so every theorem quantifies over their possible behaviours.
  Machine floats only occur as probabilities and proportions; they are
  modelled as rationals, which is faithful because the code only compares
  them to constants and divides pixel counts.
-/

set_option maxRecDepth 10000

/-! ## Basic string helpers (models of Python str primitives) -/

/-- Model of Python str.lower restricted to ASCII letters (all strings the
scraper compares are ASCII). -/
def charLower (c : Char) : Char :=
  if 65 ≤ c.toNat ∧ c.toNat ≤ 90 then Char.ofNat (c.toNat + 32) else c

/-- Lowercase every character of a string. -/
def lowerStr (s : String) : String := String.mk (s.data.map charLower)

/-- Does the first list occur at the head of the second list? -/
def isPreL : List Char → List Char → Bool
  | [], _ => true
  | _ :: _, [] => false
  | a :: as, b :: bs => a = b && isPreL as bs

/-- Model of the Python substring test needle in hay. -/
def hasSubL (hay needle : List Char) : Bool :=
  match hay with
  | [] => needle.isEmpty
  | _ :: t => isPreL needle hay || hasSubL t needle

/-- Substring test on strings, needle second. -/
def hasSubS (hay needle : String) : Bool := hasSubL hay.data needle.data

/-- Model of Python str.endswith. -/
def endsWithL (l suf : List Char) : Bool :=
  decide (l.drop (l.length - suf.length) = suf) && decide (suf.length ≤ l.length)

/-- Model of Python str.endswith on strings. -/
def endsWithS (s suf : String) : Bool := endsWithL s.data suf.data

/-- ASCII digit test, model of Python str.isdigit on one character. -/
def isDigitCh (c : Char) : Bool := 48 ≤ c.toNat && c.toNat ≤ 57

/-- Whitespace test matching the characters Python str.split and str.strip
treat as whitespace (space, tab, newline, carriage return, vertical tab,
form feed). -/
def isSpaceCh (c : Char) : Bool :=
  c = ' ' || c = '\t' || c = '\n' || c = '\r' || c.toNat = 11 || c.toNat = 12

/-- Strip leading and trailing whitespace, model of Python str.strip(). -/
def trimL (l : List Char) : List Char :=
  ((l.dropWhile isSpaceCh).reverse.dropWhile isSpaceCh).reverse

/-- Strip on strings. -/
def trimS (s : String) : String := String.mk (trimL s.data)

/-- Numeric value of a digit character. -/
def digitValCh (c : Char) : Nat := c.toNat - 48

/-- Value of a digit string, most significant first. -/
def natOfDigits (l : List Char) : Nat :=
  l.foldl (fun acc c => acc * 10 + digitValCh c) 0

/-- Model of the Python int() conversion on strings: optional surrounding
whitespace, an optional sign, then at least one decimal digit. -/
def pyIntL (l : List Char) : Option Int :=
  match trimL l with
  | [] => none
  | c :: rest =>
    if c = '-' then
      if rest ≠ [] ∧ rest.all isDigitCh then some (-(natOfDigits rest : Int)) else none
    else if c = '+' then
      if rest ≠ [] ∧ rest.all isDigitCh then some ((natOfDigits rest : Int)) else none
    else if (c :: rest).all isDigitCh then some ((natOfDigits (c :: rest) : Int)) else none

/-- Python int() on a string. -/
def pyInt (s : String) : Option Int := pyIntL s.data

/-- Model of Python str.replace(old, new) with a nonempty pattern: scan left
to right, replace nonoverlapping occurrences, continue after the
replacement.  Fueled recursion; the fuel is the length of the haystack. -/
def replaceSubAux (needle repl : List Char) : Nat → List Char → List Char
  | _, [] => []
  | 0, l => l
  | Nat.succ fuel, c :: t =>
    if isPreL needle (c :: t) ∧ needle ≠ [] then
      repl ++ replaceSubAux needle repl fuel ((c :: t).drop needle.length)
    else
      c :: replaceSubAux needle repl fuel t

/-- Python str.replace on strings. -/
def replaceSub (s needle repl : String) : String :=
  String.mk (replaceSubAux needle.data repl.data s.data.length s.data)

/-- Join a list of strings with a separator, model of Python sep.join. -/
def joinSep (sep : String) : List String → String
  | [] => ""
  | [x] => x
  | x :: y :: t => x ++ sep ++ joinSep sep (y :: t)

/-- Take the first n characters of a string, model of Python slicing s[:n]. -/
def takeChars (s : String) (n : Nat) : String := String.mk (s.data.take n)

/-- Split a character list on a separator character, model of Python
str.split(c) (empty pieces are kept). -/
def splitOnCh (sep : Char) : List Char → List (List Char)
  | [] => [[]]
  | c :: t =>
    let r := splitOnCh sep t
    if c = sep then [] :: r
    else
      match r with
      | [] => [[c]]
      | p :: ps => (c :: p) :: ps

theorem dropWhile_length_le {α : Type} (p : α → Bool) (l : List α) :
    (l.dropWhile p).length ≤ l.length := by
  induction l with
  | nil => simp
  | cons c t ih =>
    by_cases h : p c
    · simpa [List.dropWhile, h] using Nat.le_succ_of_le ih
    · simp [List.dropWhile, h]

/-- Accumulator version of whitespace splitting; the accumulator holds the
current word reversed. -/
def splitWsAcc : List Char → List Char → List (List Char)
  | [], acc => if acc = [] then [] else [acc.reverse]
  | c :: t, acc =>
    if isSpaceCh c then
      if acc = [] then splitWsAcc t [] else acc.reverse :: splitWsAcc t []
    else splitWsAcc t (c :: acc)

/-- Split on runs of whitespace discarding empty pieces, model of Python
str.split() with no argument. -/
def splitWs (l : List Char) : List (List Char) := splitWsAcc l []

/-- Model of os.path.basename: everything after the last slash. -/
def basenameL (l : List Char) : List Char :=
  (l.reverse.takeWhile (fun c => c ≠ '/')).reverse

/-- Basename on strings. -/
def basenameS (s : String) : String := String.mk (basenameL s.data)

/-! ## Order-preserving deduplication (model of Python list(dict.fromkeys(l))) -/

/-- Worker for dedupKeepFirst: keep elements not seen before, in order. -/
def dedupAux {α : Type} [DecidableEq α] : List α → List α → List α
  | [], _ => []
  | x :: xs, seen =>
    if x ∈ seen then dedupAux xs seen else x :: dedupAux xs (x :: seen)

/-- Model of list(dict.fromkeys(l)): keep the first occurrence of every
element, in first-seen order. -/
def dedupKeepFirst {α : Type} [DecidableEq α] (l : List α) : List α := dedupAux l []

theorem mem_dedupAux {α : Type} [DecidableEq α] (l seen : List α) (a : α) :
    a ∈ dedupAux l seen ↔ a ∈ l ∧ a ∉ seen := by
  induction l generalizing seen with
  | nil => simp [dedupAux]
  | cons x xs ih =>
    by_cases hx : x ∈ seen
    · rw [dedupAux, if_pos hx, ih]
      constructor
      · rintro ⟨h1, h2⟩; exact ⟨List.mem_cons_of_mem _ h1, h2⟩
      · rintro ⟨h1, h2⟩
        rcases List.mem_cons.mp h1 with rfl | h1
        · exact absurd hx h2
        · exact ⟨h1, h2⟩
    · rw [dedupAux, if_neg hx]
      simp only [List.mem_cons, ih, List.mem_cons]
      constructor
      · rintro (rfl | ⟨h1, h2⟩)
        · exact ⟨Or.inl rfl, hx⟩
        · refine ⟨Or.inr h1, fun hc => h2 (Or.inr hc)⟩
      · rintro ⟨rfl | h1, h2⟩
        · exact Or.inl rfl
        · by_cases hax : a = x
          · exact Or.inl hax
          · exact Or.inr ⟨h1, fun hc => (by
              rcases hc with hc | hc
              · exact hax hc
              · exact h2 hc)⟩

theorem mem_dedupKeepFirst {α : Type} [DecidableEq α] (l : List α) (a : α) :
    a ∈ dedupKeepFirst l ↔ a ∈ l := by
  rw [dedupKeepFirst, mem_dedupAux]
  simp

theorem dedupAux_nodup {α : Type} [DecidableEq α] (l seen : List α) :
    (dedupAux l seen).Nodup := by
  induction l generalizing seen with
  | nil => simp [dedupAux]
  | cons x xs ih =>
    by_cases hx : x ∈ seen
    · rw [dedupAux, if_pos hx]; exact ih seen
    · rw [dedupAux, if_neg hx]
      refine List.nodup_cons.mpr ⟨?_, ih _⟩
      intro hmem
      have := (mem_dedupAux _ _ _).mp hmem
      exact this.2 (List.mem_cons_self _ _)

theorem dedupKeepFirst_nodup {α : Type} [DecidableEq α] (l : List α) :
    (dedupKeepFirst l).Nodup := dedupAux_nodup l []

theorem dedupAux_pairwise {α : Type} [DecidableEq α] (l seen : List α) :
    (dedupAux l seen).Pairwise (fun a b => l.indexOf a < l.indexOf b) := by
  induction l generalizing seen with
  | nil => simp [dedupAux]
  | cons x xs ih =>
    by_cases hx : x ∈ seen
    · rw [dedupAux, if_pos hx]
      refine List.Pairwise.imp_of_mem ?_ (ih seen)
      intro a b hma hmb hlt
      have hane : a ≠ x := by
        intro hc; subst hc
        exact ((mem_dedupAux _ _ _).mp hma).2 hx
      have hbne : b ≠ x := by
        intro hc; subst hc
        exact ((mem_dedupAux _ _ _).mp hmb).2 hx
      rw [List.indexOf_cons_ne _ (fun hh => hane hh.symm),
          List.indexOf_cons_ne _ (fun hh => hbne hh.symm)]
      exact Nat.succ_lt_succ hlt
    · rw [dedupAux, if_neg hx]
      refine List.pairwise_cons.mpr ⟨?_, ?_⟩
      · intro b hb
        have hbne : b ≠ x := by
          intro hc; subst hc
          exact ((mem_dedupAux _ _ _).mp hb).2 (List.mem_cons_self _ _)
        rw [List.indexOf_cons_self, List.indexOf_cons_ne _ (fun hh => hbne hh.symm)]
        exact Nat.succ_pos _
      · refine List.Pairwise.imp_of_mem ?_ (ih (x :: seen))
        intro a b hma hmb hlt
        have hane : a ≠ x := by
          intro hc; subst hc
          exact ((mem_dedupAux _ _ _).mp hma).2 (List.mem_cons_self _ _)
        have hbne : b ≠ x := by
          intro hc; subst hc
          exact ((mem_dedupAux _ _ _).mp hmb).2 (List.mem_cons_self _ _)
        rw [List.indexOf_cons_ne _ (fun hh => hane hh.symm),
            List.indexOf_cons_ne _ (fun hh => hbne hh.symm)]
        exact Nat.succ_lt_succ hlt

theorem dedupKeepFirst_pairwise {α : Type} [DecidableEq α] (l : List α) :
    (dedupKeepFirst l).Pairwise (fun a b => l.indexOf a < l.indexOf b) :=
  dedupAux_pairwise l []

theorem dedupAux_of_nodup {α : Type} [DecidableEq α] (l seen : List α)
    (hn : l.Nodup) (hd : ∀ a ∈ l, a ∉ seen) : dedupAux l seen = l := by
  induction l generalizing seen with
  | nil => rfl
  | cons x xs ih =>
    rw [dedupAux, if_neg (hd x (List.mem_cons_self _ _))]
    congr 1
    refine ih (x :: seen) (List.nodup_cons.mp hn).2 ?_
    intro a ha
    intro hc
    rcases List.mem_cons.mp hc with rfl | hc
    · exact (List.nodup_cons.mp hn).1 ha
    · exact hd a (List.mem_cons_of_mem _ ha) hc

theorem dedupKeepFirst_idem {α : Type} [DecidableEq α] (l : List α) :
    dedupKeepFirst (dedupKeepFirst l) = dedupKeepFirst l :=
  dedupAux_of_nodup _ [] (dedupKeepFirst_nodup l) (fun _ _ => List.not_mem_nil _)

/-! ## The per-URL record and the processing pipeline
    (webscraper_v7.py, process_url lines 583-668 and main lines 706-741) -/

/-- The result dictionary built by process_url.  The has_gradients key is
absent from the initial dictionary in the source (it is only assigned inside
the try block), hence an Option here with none modelling the missing key. -/
structure ScrapeRecord where
  url : String
  title : String
  meta_description : String
  keywords : String
  language : String
  language_confidence : Rat
  languages_detected : String
  multilingual : Bool
  background_colors : List String
  font_family : String
  font_list : List String
  cursor_custom : Bool
  cursor_links : List String
  has_gif : Bool
  gifs : List String
  has_buttons : Bool
  buttons : List String
  has_blinkies : Bool
  blinkies : List String
  has_sounds : Bool
  sounds : List String
  visible_text : String
  error : String
  tags_api : List String
  tag : String
  created_at : String
  last_updated : String
  platform : String
  has_gradients : Option Bool
deriving Repr, DecidableEq

/-- The initial result dictionary of process_url (lines 584-613). -/
def defaultRecord (url : String) : ScrapeRecord :=
  { url := url, title := "", meta_description := "", keywords := ""
  , language := "", language_confidence := 0, languages_detected := ""
  , multilingual := false, background_colors := [], font_family := ""
  , font_list := [], cursor_custom := false, cursor_links := []
  , has_gif := false, gifs := [], has_buttons := false, buttons := []
  , has_blinkies := false, blinkies := [], has_sounds := false, sounds := []
  , visible_text := "", error := "", tags_api := [], tag := ""
  , created_at := "", last_updated := "", platform := ""
  , has_gradients := none }

/-- One fallible stage of the extraction pipeline inside the try block of
process_url: it reads the record built so far and either extends it or
raises an exception carrying a description string.  The concrete stages
(title, meta, language, dates, platform, media, styles) are instances. -/
def ExtractStep : Type := ScrapeRecord → Except String ScrapeRecord

/-- The environment a single process_url call runs in: the robots.txt
verdict of can_fetch_url (which fails open, lines 48-58), the outcome of
fetch_url (raise_for_status makes it fallible, lines 64-68), and the
extraction stages executed in order inside the try block. -/
structure CrawlEnv where
  robotsAllowed : Bool
  fetched : Except String Unit
  steps : List ExtractStep

/-- Run the stages of the try block in order.  Python mutates the result
dictionary stage by stage, so when a stage raises, the fields already
assigned are kept and only the error field is set (lines 664-666). -/
def runSteps : ScrapeRecord → List ExtractStep → ScrapeRecord
  | r, [] => r
  | r, s :: rest =>
    match s r with
    | Except.ok r2 => runSteps r2 rest
    | Except.error e => { r with error := e }

/-- Run a prefix of stages requiring every one of them to succeed; used only
to state which record a failing stage observes. -/
def stepsOk : ScrapeRecord → List ExtractStep → Option ScrapeRecord
  | r, [] => some r
  | r, s :: rest =>
    match s r with
    | Except.ok r2 => stepsOk r2 rest
    | Except.error _ => none

/-- Model of process_url (lines 583-668): robots check first with an early
return, then the fetch, then the extraction stages, every exception caught
and recorded in the error field of the same single record. -/
def process_url (url : String) (env : CrawlEnv) : ScrapeRecord :=
  if env.robotsAllowed = false then
    { defaultRecord url with error := "Blocked by robots.txt" }
  else
    match env.fetched with
    | Except.error e => { defaultRecord url with error := e }
    | Except.ok _ => runSteps (defaultRecord url) env.steps

/-- One input line of the main loop: url, tag and the network environment
this URL will encounter. -/
def CrawlJob : Type := String × String × CrawlEnv

/-- Model of the main loop (lines 722-732): process every URL in order,
attach the tag, append the record to the results list. -/
def mainLoop : List CrawlJob → List ScrapeRecord
  | [] => []
  | (u, t, env) :: rest => { process_url u env with tag := t } :: mainLoop rest

theorem mainLoop_eq_map (jobs : List CrawlJob) :
    mainLoop jobs = jobs.map (fun j => { process_url j.1 j.2.2 with tag := j.2.1 }) := by
  induction jobs with
  | nil => rfl
  | cons j rest ih => cases j with
    | mk u p => cases p with
      | mk t env => simp [mainLoop, ih]

theorem runSteps_append_fail (r r1 : ScrapeRecord) (sPre sPost : List ExtractStep)
    (f : ExtractStep) (e : String)
    (hpre : stepsOk r sPre = some r1) (hf : f r1 = Except.error e) :
    runSteps r (sPre ++ f :: sPost) = { r1 with error := e } := by
  induction sPre generalizing r with
  | nil =>
    simp only [stepsOk] at hpre
    cases hpre
    simp [runSteps, hf]
  | cons s rest ih =>
    simp only [stepsOk] at hpre
    cases hs : s r with
    | ok r2 =>
      rw [hs] at hpre
      simp only [List.cons_append, runSteps, hs]
      exact ih r2 hpre
    | error e2 =>
      rw [hs] at hpre
      simp at hpre

/-- Claim C1: for every input URL, process_url returns exactly one record
and never raises: any exception raised during fetching or extraction is
caught, its description stored in the error field of the record, and the
record is still emitted, so the total failure of one URL never prevents
subsequent URLs from being processed.  Formalised as: (1) the main loop
yields exactly one record per job and each record depends only on its own
job, so the loop decomposes around any job; (2) a fetch exception is stored
in the error field; (3) when an extraction stage raises after a prefix of
stages succeeded, the partially filled record is still returned with the
description stored in its error field. -/
theorem process_url_total_one_record_per_url
    (jobs pre post : List CrawlJob) (j : CrawlJob)
    (url : String) (env : CrawlEnv) (e : String)
    (r r1 : ScrapeRecord) (sPre sPost : List ExtractStep) (f : ExtractStep)
    (hsplit : jobs = pre ++ j :: post)
    (hrob : env.robotsAllowed = true) (hfetch : env.fetched = Except.error e)
    (hpre : stepsOk r sPre = some r1) (hf : f r1 = Except.error e) :
    (mainLoop jobs).length = jobs.length ∧
    mainLoop jobs = mainLoop pre ++ { process_url j.1 j.2.2 with tag := j.2.1 } :: mainLoop post ∧
    (process_url url env).error = e ∧
    runSteps r (sPre ++ f :: sPost) = { r1 with error := e } := by
  refine ⟨?_, ?_, ?_, ?_⟩
  · rw [mainLoop_eq_map]; simp
  · subst hsplit
    rw [mainLoop_eq_map, mainLoop_eq_map, mainLoop_eq_map]
    simp
  · simp [process_url, hrob, hfetch]
  · exact runSteps_append_fail r r1 sPre sPost f e hpre hf

/-- Witness for C1 at a concrete two-job list whose first job fails its
fetch and whose second job is blocked by robots.txt. -/
theorem process_url_total_one_record_per_url_witness :
    (mainLoop [("http://a.example", "t1", ⟨true, Except.error "boom", []⟩),
               ("http://b.example", "", ⟨false, Except.ok (), []⟩)]).length = 2 ∧
    (process_url "http://a.example" ⟨true, Except.error "boom", []⟩).error = "boom" ∧
    runSteps (defaultRecord "u") ([] ++ (fun _ => Except.error "boom") :: []) =
      { defaultRecord "u" with error := "boom" } := by
  have h := process_url_total_one_record_per_url
    [("http://a.example", "t1", ⟨true, Except.error "boom", []⟩),
     ("http://b.example", "", ⟨false, Except.ok (), []⟩)]
    [] [("http://b.example", "", ⟨false, Except.ok (), []⟩)]
    ("http://a.example", "t1", ⟨true, Except.error "boom", []⟩)
    "http://a.example" ⟨true, Except.error "boom", []⟩ "boom"
    (defaultRecord "u") (defaultRecord "u") [] [] (fun _ => Except.error "boom")
    rfl rfl rfl rfl rfl
  exact ⟨h.1, h.2.2.1, h.2.2.2⟩

/-- Claim C2: when robots.txt disallows the URL, process_url returns before
fetching: the record equals the initial default dictionary except for the
error field, which carries the block message, so every content, media,
style, language and temporal field has its default empty value, and the
result does not depend on the fetch outcome or the extraction stages. -/
theorem process_url_robots_blocked (url : String) (env : CrawlEnv)
    (hrob : env.robotsAllowed = false) :
    process_url url env = { defaultRecord url with error := "Blocked by robots.txt" } ∧
    (process_url url env).error ≠ "" ∧
    (process_url url env).title = "" ∧
    (process_url url env).meta_description = "" ∧
    (process_url url env).keywords = "" ∧
    (process_url url env).visible_text = "" ∧
    (process_url url env).language = "" ∧
    (process_url url env).language_confidence = 0 ∧
    (process_url url env).languages_detected = "" ∧
    (process_url url env).multilingual = false ∧
    (process_url url env).background_colors = [] ∧
    (process_url url env).font_family = "" ∧
    (process_url url env).font_list = [] ∧
    (process_url url env).cursor_custom = false ∧
    (process_url url env).cursor_links = [] ∧
    (process_url url env).gifs = [] ∧
    (process_url url env).buttons = [] ∧
    (process_url url env).blinkies = [] ∧
    (process_url url env).sounds = [] ∧
    (process_url url env).has_gif = false ∧
    (process_url url env).has_buttons = false ∧
    (process_url url env).has_blinkies = false ∧
    (process_url url env).has_sounds = false ∧
    (process_url url env).created_at = "" ∧
    (process_url url env).last_updated = "" ∧
    (process_url url env).platform = "" ∧
    (process_url url env).tags_api = [] ∧
    (process_url url env).has_gradients = none := by
  have hmain : process_url url env =
      { defaultRecord url with error := "Blocked by robots.txt" } := by
    simp [process_url, hrob]
  rw [hmain]
  refine ⟨rfl, ?_⟩
  simp [defaultRecord]

/-- Witness for C2 at a concrete blocked environment. -/
theorem process_url_robots_blocked_witness :
    process_url "http://x.example/private" ⟨false, Except.ok (), []⟩ =
      { defaultRecord "http://x.example/private" with error := "Blocked by robots.txt" } :=
  (process_url_robots_blocked "http://x.example/private" ⟨false, Except.ok (), []⟩ rfl).1

/-! ## Language detection (webscraper_v7.py, detect_language_profile lines 107-153) -/

/-- One entry of the probability list returned by langdetect detect_langs. -/
structure LangProb where
  lang : String
  prob : Rat
deriving Repr, DecidableEq

/-- The borrowed vocabulary list of lines 125-130. -/
def borrowed_words : List String :=
  ["home", "about", "contact", "portfolio", "index", "welcome",
   "update", "blog", "link", "back", "gallery", "by", "from",
   "guestbook", "shoutbook", "pet", "webring", "webpage", "post",
   "webmaster"]

/-- The replacement loop of lines 131-132. -/
def stripBorrowed (t : String) : String :=
  borrowed_words.foldl (fun acc w => replaceSub acc (" " ++ w ++ " ") " ") t

/-- Stable descending sort by probability, model of
list.sort(key=lambda x: x[1], reverse=True) which is a stable sort. -/
def sortByProbDesc (l : List LangProb) : List LangProb :=
  l.mergeSort (fun a b => decide (b.prob ≤ a.prob))

/-- Model of detect_language_profile (lines 107-153).  The langdetect
library is an oracle: given the preprocessed text it either raises
LangDetectException (Except.error) or returns a probability list.  The
outer Except models the uncaught IndexError when the oracle returns an
empty list; langdetect never does this, but the embedding stays total. -/
def detect_language_profile (detector : String → Except Unit (List LangProb))
    (text : String) : Except String (String × Rat × String × Bool) :=
  if text.length < 50 then Except.ok ("", 0, "", false)
  else
    let t := takeChars text 8000
    let text_lower := stripBorrowed (lowerStr t)
    match detector text_lower with
    | Except.error _ => Except.ok ("", 0, "", false)
    | Except.ok probs =>
      let sorted := sortByProbDesc probs
      match sorted with
      | [] => Except.error "IndexError: list index out of range"
      | top :: _ =>
        let primary0 := top.lang
        let confidence := top.prob
        let all_langs := joinSep " | "
          ((sorted.filter (fun p => (1 : Rat)/20 < p.prob)).map (fun p => p.lang))
        let is_multilingual :=
          decide (1 < (sorted.filter (fun p => (3 : Rat)/20 < p.prob)).length)
        let primary1 :=
          if (primary0 = "sw" ∨ primary0 = "pt" ∨ primary0 = "no" ∨ primary0 = "ca") ∧
             ([" de ", " la ", " el ", " que ", " los "].any (fun w => hasSubS text_lower w)) then
            "es" else primary0
        let primary2 :=
          if (primary1 ≠ "es" ∧ primary1 ≠ "en") ∧
             ([" the ", " and ", " to ", " of "].any (fun w => hasSubS text_lower w)) then
            "en" else primary1
        Except.ok (primary2, confidence, all_langs, is_multilingual)

/-- Claim C3: for every text input that is empty or shorter than 50
characters, detect_language_profile returns an empty primary language,
zero confidence, an empty detected-languages string and a false
multilingual flag, whatever the langdetect oracle would do. -/
theorem detect_language_profile_short_text
    (detector : String → Except Unit (List LangProb)) (text : String)
    (h : text.length < 50) :
    detect_language_profile detector text = Except.ok ("", 0, "", false) := by
  simp [detect_language_profile, h]

/-- Witness for C3 at the empty string and at a short nonempty string. -/
theorem detect_language_profile_short_text_witness :
    detect_language_profile (fun _ => Except.ok [⟨"en", 1⟩]) "hello world" =
      Except.ok ("", 0, "", false) :=
  detect_language_profile_short_text (fun _ => Except.ok [⟨"en", 1⟩]) "hello world"
    (by decide)

/-! ## Platform detection (webscraper_v7.py, detect_platform lines 305-330) -/

/-- Everything after the first occurrence of the scheme separator. -/
def afterSchemeSep : List Char → List Char
  | [] => []
  | c :: t => if isPreL [':', '/', '/'] (c :: t) then t.drop 2 else afterSchemeSep t

/-- Model of urlparse(url).netloc for absolute URLs: the text between the
scheme separator and the next slash, question mark or hash. -/
def netlocOf (url : String) : String :=
  if hasSubS url "://" then
    String.mk ((afterSchemeSep url.data).takeWhile (fun c => c ≠ '/' ∧ c ≠ '?' ∧ c ≠ '#'))
  else ""

/-- Model of detect_platform (lines 305-330): an ordered chain of substring
tests on the lowercased host, except that the WordPress rule also tests the
lowercased HTML body for wp-content and the Google Sites rule tests only
the lowercased HTML body. -/
def detect_platform (url html_text : String) : String :=
  let host := lowerStr (netlocOf url)
  let html_lower := lowerStr html_text
  if hasSubS host "neocities.org" then "Neocities"
  else if hasSubS host "github.io" then "GitHub Pages"
  else if hasSubS host "netlify.app" then "Netlify"
  else if hasSubS host "vercel.app" then "Vercel"
  else if hasSubS host "wordpress.com" || hasSubS html_lower "wp-content" then "WordPress"
  else if hasSubS host "blogspot." then "Blogger"
  else if hasSubS host "wixsite.com" then "Wix"
  else if hasSubS host "weebly.com" then "Weebly"
  else if hasSubS host "glitch.me" then "Glitch"
  else if hasSubS host "replit.dev" || hasSubS host "repl.co" then "Replit"
  else if hasSubS html_lower "google.com/sites" then "Google Sites"
  else "Unknown"

/-- Claim C9 counterexample: the claim says only the WordPress rule reads
the HTML body, so two bodies agreeing on the substring wp-content must
classify alike for the same URL.  The Google Sites rule (line 328) also
reads the body: the bodies "" and "see google.com/sites" both lack
wp-content yet classify differently. -/
theorem detect_platform_body_dependence_counterexample :
    hasSubS (lowerStr "") "wp-content" = hasSubS (lowerStr "see google.com/sites") "wp-content" ∧
    detect_platform "http://example.com/" "" = "Unknown" ∧
    detect_platform "http://example.com/" "see google.com/sites" = "Google Sites" ∧
    detect_platform "http://example.com/" "" ≠
      detect_platform "http://example.com/" "see google.com/sites" := by
  refine ⟨rfl, rfl, rfl, ?_⟩
  decide

/-- Claim C9 amended: detect_platform is an ordered first-match rule chain
whose result depends on the host and, through exactly two rules, on the
HTML body: the WordPress rule tests the body for wp-content and the Google
Sites rule tests the body for google.com/sites.  Two bodies agreeing on
both substrings classify identically for every URL, and when no rule
matches the result is Unknown. -/
theorem detect_platform_amended (url h1 h2 html : String)
    (hwp : hasSubS (lowerStr h1) "wp-content" = hasSubS (lowerStr h2) "wp-content")
    (hgs : hasSubS (lowerStr h1) "google.com/sites" = hasSubS (lowerStr h2) "google.com/sites")
    (hn1 : hasSubS (lowerStr (netlocOf url)) "neocities.org" = false)
    (hn2 : hasSubS (lowerStr (netlocOf url)) "github.io" = false)
    (hn3 : hasSubS (lowerStr (netlocOf url)) "netlify.app" = false)
    (hn4 : hasSubS (lowerStr (netlocOf url)) "vercel.app" = false)
    (hn5 : hasSubS (lowerStr (netlocOf url)) "wordpress.com" = false)
    (hn6 : hasSubS (lowerStr (netlocOf url)) "blogspot." = false)
    (hn7 : hasSubS (lowerStr (netlocOf url)) "wixsite.com" = false)
    (hn8 : hasSubS (lowerStr (netlocOf url)) "weebly.com" = false)
    (hn9 : hasSubS (lowerStr (netlocOf url)) "glitch.me" = false)
    (hn10 : hasSubS (lowerStr (netlocOf url)) "replit.dev" = false)
    (hn11 : hasSubS (lowerStr (netlocOf url)) "repl.co" = false)
    (hb1 : hasSubS (lowerStr html) "wp-content" = false)
    (hb2 : hasSubS (lowerStr html) "google.com/sites" = false) :
    detect_platform url h1 = detect_platform url h2 ∧
    detect_platform url html = "Unknown" := by
  constructor
  · simp only [detect_platform, hwp, hgs]
  · simp only [detect_platform, hn1, hn2, hn3, hn4, hn5, hn6, hn7, hn8, hn9, hn10, hn11,
      hb1, hb2, Bool.or_self, if_false, Bool.false_eq_true, ite_false]

/-- Witness for the amended C9 at a concrete URL and three bodies. -/
theorem detect_platform_amended_witness :
    detect_platform "http://example.com/" "abc wp-content xyz" =
      detect_platform "http://example.com/" "wp-content elsewhere" ∧
    detect_platform "http://example.com/" "plain page" = "Unknown" :=
  detect_platform_amended "http://example.com/" "abc wp-content xyz"
    "wp-content elsewhere" "plain page"
    rfl rfl rfl rfl rfl rfl rfl rfl rfl rfl rfl rfl rfl rfl rfl

/-! ## Media extraction (webscraper_v7.py, lines 334-436) -/

/-- Python truthiness of an optional attribute string: present and
nonempty. -/
def pyTruthy : Option String → Bool
  | none => false
  | some s => s ≠ ""

/-- Model of the Python expression a or b on optional attribute strings:
the left value when truthy, otherwise the right value. -/
def pyAttrOr (a b : Option String) : Option String := if pyTruthy a then a else b

/-- The scheme of an absolute URL: everything before the first colon. -/
def schemeOf (url : String) : String :=
  String.mk (url.data.takeWhile (fun c => c ≠ ':'))

/-- Model of urllib.parse.urljoin restricted to the bases the scraper
passes: get_root_url always yields scheme://host with an empty path
(lines 60-62), for which urljoin returns the source when absolute,
prepends the scheme for protocol-relative references and otherwise joins
the reference onto the root. -/
def urljoinM (base src : String) : String :=
  if src = "" then base
  else if hasSubS src "://" then src
  else if isPreL ['/', '/'] src.data then schemeOf base ++ ":" ++ src
  else if isPreL ['/'] src.data then schemeOf base ++ "://" ++ netlocOf base ++ src
  else schemeOf base ++ "://" ++ netlocOf base ++ "/" ++ src

/-- The single quote character, written by code point. -/
def quoteCh : Char := Char.ofNat 39

/-- Chars up to the first closing parenthesis, none when unclosed. -/
def takeUntilParen : List Char → Option (List Char)
  | [] => none
  | c :: t => if c = ')' then some [] else (takeUntilParen t).map (fun r => c :: r)

/-- Everything after the first occurrence of url followed by an opening
parenthesis. -/
def afterUrlOpen : List Char → Option (List Char)
  | [] => none
  | c :: t =>
    if isPreL ['u', 'r', 'l', '('] (c :: t) then some ((c :: t).drop 4)
    else afterUrlOpen t

/-- Strip at most one leading and one trailing quote character. -/
def stripQuotesOnce (l : List Char) : List Char :=
  let l1 := match l with
    | c :: t => if c = quoteCh ∨ c = '"' then t else c :: t
    | [] => []
  match l1.reverse with
  | c :: t => if c = quoteCh ∨ c = '"' then t.reverse else l1
  | [] => l1

/-- Model of the regex search for a url argument used at lines 411 and 506:
the group is the text between the first url-open and the next closing
parenthesis, with one optional quote stripped at each end. -/
def getUrlArg (s : List Char) : Option String :=
  match afterUrlOpen s with
  | none => none
  | some rest =>
    match takeUntilParen rest with
    | none => none
    | some content => some (String.mk (stripQuotesOnce content))

/-- An img element as the media scanner sees it. -/
structure ImgTag where
  src : String
  width : Option String := none
  height : Option String := none
  dataWidth : Option String := none
  dataHeight : Option String := none
deriving Repr, DecidableEq

/-- A sound-bearing element (audio, embed, bgsound, object, source) with
the attributes the scanner reads and, for audio, the src attributes of the
nested source children. -/
structure SoundTag where
  name : String
  src : Option String := none
  dataAttr : Option String := none
  valueAttr : Option String := none
  childSources : List (Option String) := []
deriving Repr, DecidableEq

/-- The parts of a parsed HTML document that the media scanners consume:
img elements, the style attribute text of every styled tag, and the
sound-bearing elements, all in document order. -/
structure MediaDoc where
  imgs : List ImgTag
  styledTags : List String
  soundTags : List SoundTag
deriving Repr, DecidableEq

/-- The gif list before deduplication (find_gifs lines 334-342). -/
def rawGifs (doc : MediaDoc) (base : String) : List String :=
  doc.imgs.foldl (fun acc img =>
    if img.src = "" then acc
    else
      let full := urljoinM base img.src
      if endsWithS (lowerStr full) ".gif" || hasSubS (lowerStr full) ".gif" then
        acc ++ [full]
      else acc) []

/-- Model of find_gifs (lines 334-343). -/
def find_gifs (doc : MediaDoc) (base : String) : List String :=
  dedupKeepFirst (rawGifs doc base)

/-- The button-indicating filename tokens of line 402. -/
def buttonTokens : List String := ["button", "badge", "btn", "88x31", "80x15"]

/-- The blinkie-indicating filename tokens of line 404. -/
def blinkieTokens : List String := ["blink", "blinkie", "150x20"]

/-- The inner classify_by_size on already converted integers
(lines 356-367): blinkie range first, then button range. -/
def classifySizeInt (wi hi : Int) (url : String) (bb : List String × List String) :
    List String × List String :=
  if 120 ≤ wi ∧ wi ≤ 160 ∧ 18 ≤ hi ∧ hi ≤ 25 then (bb.1, bb.2 ++ [url])
  else if 70 ≤ wi ∧ wi ≤ 100 ∧ 12 ≤ hi ∧ hi ≤ 35 then (bb.1 ++ [url], bb.2)
  else bb

/-- classify_by_size on attribute strings: int() conversion first, any
failure classifies nothing. -/
def classify_by_size (w h : String) (url : String) (bb : List String × List String) :
    List String × List String :=
  match pyInt w, pyInt h with
  | some wi, some hi => classifySizeInt wi hi url bb
  | _, _ => bb

/-- One iteration of the img loop of find_buttons_and_blinkies
(lines 370-405).  The state is ((buttons, blinkies), checked_urls).  When
both dimension attributes are truthy the size classification runs and the
loop continues, skipping the filename test; otherwise the dimension probe
(an oracle for the PIL fallback, lines 388-398) and then the filename
classification run. -/
def imgScanStep (base : String) (probe : String → Option (Int × Int))
    (st : (List String × List String) × List String) (img : ImgTag) :
    (List String × List String) × List String :=
  let bb := st.1
  let checked := st.2
  if img.src = "" then st
  else
    let full := urljoinM base img.src
    if full ∈ checked then st
    else
      let checked2 := checked ++ [full]
      let w := pyAttrOr img.width img.dataWidth
      let h := pyAttrOr img.height img.dataHeight
      if pyTruthy w && pyTruthy h then
        (classify_by_size (w.getD "") (h.getD "") full bb, checked2)
      else
        let bb1 :=
          if [".gif", ".png", ".jpg", ".jpeg"].any (fun e => endsWithS (lowerStr full) e) then
            match probe full with
            | some (wi, hi) => classifySizeInt wi hi full bb
            | none => bb
          else bb
        let filename := lowerStr (basenameS img.src)
        let bb2 :=
          if buttonTokens.any (fun k => hasSubS filename k) then (bb1.1 ++ [full], bb1.2)
          else if blinkieTokens.any (fun k => hasSubS filename k) then (bb1.1, bb1.2 ++ [full])
          else bb1
        (bb2, checked2)

/-- One iteration of the inline-style loop (lines 408-417). -/
def styleScanStep (base : String) (bb : List String × List String) (styleAttr : String) :
    List String × List String :=
  let s := lowerStr styleAttr
  if hasSubS s "background" && (hasSubS s "button" || hasSubS s "badge" || hasSubS s "blink") then
    match getUrlArg s.data with
    | some u =>
      let url_img := urljoinM base u
      if hasSubS s "blink" || hasSubS s "150x20" then (bb.1, bb.2 ++ [url_img])
      else (bb.1 ++ [url_img], bb.2)
    | none => bb
  else bb

/-- Buttons and blinkies before the final deduplication. -/
def rawButtonsBlinkies (doc : MediaDoc) (base : String)
    (probe : String → Option (Int × Int)) : List String × List String :=
  let st := doc.imgs.foldl (imgScanStep base probe) (([], []), [])
  doc.styledTags.foldl (styleScanStep base) st.1

/-- Model of find_buttons_and_blinkies (lines 345-423). -/
def find_buttons_and_blinkies (doc : MediaDoc) (base : String)
    (probe : String → Option (Int × Int)) : List String × List String :=
  let raw := rawButtonsBlinkies doc base probe
  (dedupKeepFirst raw.1, dedupKeepFirst raw.2)

/-- The sound list before deduplication (find_sounds lines 425-435). -/
def rawSounds (doc : MediaDoc) (base : String) : List String :=
  doc.soundTags.foldl (fun acc tag =>
    let s := (pyAttrOr (pyAttrOr tag.src tag.dataAttr) tag.valueAttr).getD ""
    let acc1 := if s ≠ "" then acc ++ [urljoinM base s] else acc
    if tag.name = "audio" then
      tag.childSources.foldl (fun a c =>
        if pyTruthy c then a ++ [urljoinM base (c.getD "")] else a) acc1
    else acc1) []

/-- Model of find_sounds (lines 425-436). -/
def find_sounds (doc : MediaDoc) (base : String) : List String :=
  dedupKeepFirst (rawSounds doc base)

/-- Claim C4 counterexample: the claim says a button-indicating filename
alone suffices for Button classification even when explicit dimensions lie
outside the button range.  In the code the img loop continues right after
the dimension classification (line 384), skipping the filename test, so an
img with src button.gif and explicit 10x10 dimensions is classified as
nothing at all. -/
theorem find_buttons_filename_ignored_counterexample :
    hasSubS (lowerStr (basenameS "button.gif")) "button" = true ∧
    find_buttons_and_blinkies ⟨[⟨"button.gif", some "10", some "10", none, none⟩], [], []⟩
      "http://e.com" (fun _ => none) = ([], []) :=
  ⟨rfl, rfl⟩
/-- Helper: when both explicit dimension attributes are truthy, the img
loop body classifies by size and continues, so the filename tokens are
never consulted. -/
theorem imgScanStep_dims (base src w h : String) (probe : String → Option (Int × Int))
    (st : (List String × List String) × List String)
    (hsrc : src ≠ "") (hw : w ≠ "") (hh : h ≠ "")
    (hnc : urljoinM base src ∉ st.2) :
    imgScanStep base probe st ⟨src, some w, some h, none, none⟩ =
      (classify_by_size w h (urljoinM base src) st.1, st.2 ++ [urljoinM base src]) := by
  have hptw : pyTruthy (some w) = true := by simp [pyTruthy, hw]
  have hpth : pyTruthy (some h) = true := by simp [pyTruthy, hh]
  simp only [imgScanStep, pyAttrOr, hptw, hpth, if_true, Bool.and_self, Option.getD_some]
  rw [if_neg hsrc, if_neg hnc]

/-- Claim C4 amended: for an img with both explicit dimension attributes
present, classification uses only the parsed dimensions: Button exactly
when width and height parse as integers in [70,100] and [12,35] (the
blinkie range is tested first but is disjoint), Blinkie exactly on the
blinkie range, and nothing otherwise; the button-indicating filename
tokens are only consulted when an explicit dimension is missing. -/
theorem find_buttons_dims_take_precedence (src w h base : String)
    (probe : String → Option (Int × Int))
    (hsrc : src ≠ "") (hw : w ≠ "") (hh : h ≠ "") :
    find_buttons_and_blinkies ⟨[⟨src, some w, some h, none, none⟩], [], []⟩ base probe =
      (match pyInt w, pyInt h with
       | some wi, some hi =>
         if 120 ≤ wi ∧ wi ≤ 160 ∧ 18 ≤ hi ∧ hi ≤ 25 then ([], [urljoinM base src])
         else if 70 ≤ wi ∧ wi ≤ 100 ∧ 12 ≤ hi ∧ hi ≤ 35 then ([urljoinM base src], [])
         else ([], [])
       | _, _ => ([], [])) := by
  have hstep := imgScanStep_dims base src w h probe (([], []), []) hsrc hw hh
    (List.not_mem_nil _)
  simp only [find_buttons_and_blinkies, rawButtonsBlinkies, List.foldl_cons, List.foldl_nil,
    hstep]
  cases hpw : pyInt w with
  | none =>
    cases hph : pyInt h <;> simp [classify_by_size, hpw, dedupKeepFirst, dedupAux]
  | some wi =>
    cases hph : pyInt h with
    | none => simp [classify_by_size, hpw, hph, dedupKeepFirst, dedupAux]
    | some hi =>
      by_cases hbl : 120 ≤ wi ∧ wi ≤ 160 ∧ 18 ≤ hi ∧ hi ≤ 25
      · simp [classify_by_size, hpw, hph, classifySizeInt, hbl, dedupKeepFirst, dedupAux]
      · by_cases hbt : 70 ≤ wi ∧ wi ≤ 100 ∧ 12 ≤ hi ∧ hi ≤ 35
        · simp [classify_by_size, hpw, hph, classifySizeInt, hbl, hbt, dedupKeepFirst, dedupAux]
        · simp [classify_by_size, hpw, hph, classifySizeInt, hbl, hbt, dedupKeepFirst, dedupAux]

/-- Witness for the amended C4: an 88x31 image named btn.gif is a Button
via its dimensions. -/
theorem find_buttons_dims_take_precedence_witness :
    find_buttons_and_blinkies ⟨[⟨"btn.gif", some "88", some "31", none, none⟩], [], []⟩
      "http://e.com" (fun _ => none) = (["http://e.com/btn.gif"], []) := by
  have h := find_buttons_dims_take_precedence "btn.gif" "88" "31" "http://e.com"
    (fun _ => none) (by decide) (by decide) (by decide)
  simpa using h

/-! ## CSS parsing (webscraper_v7.py, lines 466-579)

The source parses CSS with tinycss2 (the cssutils fallback of lines
510-527 is dead in practice because tinycss2 parsing is error-tolerant and
does not raise on malformed CSS).  The embedding below reproduces the
tinycss2 view the code consumes: top-level blocks become qualified rules
unless their prelude starts with an at sign, the block content is split
into name/value declarations, and the value text is what the regexes of
lines 492-508 scan. -/

/-- The remainder after the first comment-closing marker. -/
def findCommentClose : List Char → Option (List Char)
  | [] => none
  | c :: t =>
    if isPreL ['*', '/'] (c :: t) then some (t.drop 1)
    else findCommentClose t

/-- Model of re.sub stripping complete comments (line 473): an unterminated
comment is left in place, as the nongreedy regex only matches closed
comments. -/
def stripCssCommentsAux : Nat → List Char → List Char
  | _, [] => []
  | 0, l => l
  | Nat.succ fuel, c :: t =>
    if isPreL ['/', '*'] (c :: t) then
      match findCommentClose (t.drop 1) with
      | some rest => stripCssCommentsAux fuel rest
      | none => c :: t
    else c :: stripCssCommentsAux fuel t

/-- Strip complete CSS comments from a character list. -/
def stripCssComments (l : List Char) : List Char := stripCssCommentsAux l.length l

/-- Does the accumulated (reversed) prelude start with an at sign after
trimming, making the block an at-rule that tinycss2 reports as a
non-qualified rule skipped at line 480? -/
def isAtPrelude (preludeRev : List Char) : Bool :=
  match trimL preludeRev.reverse with
  | c :: _ => c = '@'
  | [] => false

/-- Scan the stylesheet into the content of its qualified rule blocks.
State: reversed prelude of the current rule, reversed content of the open
block, nesting depth inside the block.  A semicolon at the top level ends
an at-rule without a block; end of input closes an open block. -/
def rulesScan : List Char → List Char → List Char → Nat → List (List Char)
  | [], preludeRev, content, depth =>
    if depth = 0 then []
    else if isAtPrelude preludeRev then [] else [content.reverse]
  | c :: t, preludeRev, content, 0 =>
    if c = '{' then rulesScan t preludeRev [] 1
    else if c = ';' then rulesScan t [] content 0
    else rulesScan t (c :: preludeRev) content 0
  | c :: t, preludeRev, content, Nat.succ depth =>
    if c = '{' then rulesScan t preludeRev (c :: content) (depth + 2)
    else if c = '}' then
      if depth = 0 then
        if isAtPrelude preludeRev then rulesScan t [] [] 0
        else content.reverse :: rulesScan t [] [] 0
      else rulesScan t preludeRev (c :: content) depth
    else rulesScan t preludeRev (c :: content) (Nat.succ depth)

/-- The qualified-rule contents of a stylesheet. -/
def rulesOf (l : List Char) : List (List Char) := rulesScan l [] [] 0

/-- One declaration of a block: text before the first colon is the
lowercased name (model of decl.lower_name), text after it the serialized,
stripped and lowercased value (line 486). -/
def parseDecl (seg : List Char) : Option (String × String) :=
  if seg.elem ':' then
    let name := trimL (seg.takeWhile (fun c => c ≠ ':'))
    let value := (seg.dropWhile (fun c => c ≠ ':')).drop 1
    if name ≠ [] then
      some (String.mk (name.map charLower), lowerStr (trimS (String.mk value)))
    else none
  else none

/-- The declarations of a block content, model of
tinycss2.parse_declaration_list. -/
def declsOf (content : List Char) : List (String × String) :=
  (splitOnCh ';' content).filterMap parseDecl

/-- Lowercase hex digit test. -/
def isHexLow (c : Char) : Bool := isDigitCh c || (97 ≤ c.toNat && c.toNat ≤ 102)

/-- Lowercase ASCII letter test. -/
def isLowAlpha (c : Char) : Bool := 97 ≤ c.toNat && c.toNat ≤ 122

/-- Word character for the regex word boundary: letters, digits,
underscore. -/
def isWordCh (c : Char) : Bool :=
  isDigitCh c || isLowAlpha c || (65 ≤ c.toNat && c.toNat ≤ 90) || c = '_'

/-- Match a named call such as rgb(...) or var(...) at the head: the name,
an optional letter a when allowed, an opening parenthesis, at least one
character that is not a closing parenthesis, then the closing
parenthesis.  Returns the token and the rest. -/
def matchCall (name : List Char) (allowA : Bool) (l : List Char) :
    Option (List Char × List Char) :=
  if isPreL name l then
    let after := l.drop name.length
    let (withA, after2) :=
      if allowA then
        match after with
        | 'a' :: t2 => (true, t2)
        | _ => (false, after)
      else (false, after)
    match after2 with
    | '(' :: t3 =>
      let content := t3.takeWhile (fun c => c ≠ ')')
      let rest := t3.dropWhile (fun c => c ≠ ')')
      if content ≠ [] ∧ rest ≠ [] then
        some (name ++ (if withA then ['a'] else []) ++ ['('] ++ content ++ [')'], rest.drop 1)
      else none
    | _ => none
  else none

/-- Try the alternatives of the color regex of lines 492-495 at the current
position, in regex order: hex token, rgb or rgba call, hsl or hsla call,
var call, linear-gradient call, then a lowercase word between word
boundaries (prev carries the preceding character for the left boundary). -/
def matchColorToken (prev : Option Char) (l : List Char) :
    Option (List Char × List Char) :=
  match l with
  | [] => none
  | '#' :: t =>
    let run := t.takeWhile isHexLow
    if 3 ≤ run.length then
      some ('#' :: run.take 8, t.drop (min run.length 8))
    else none
  | c :: t =>
    match matchCall ['r', 'g', 'b'] true (c :: t) with
    | some r => some r
    | none =>
      match matchCall ['h', 's', 'l'] true (c :: t) with
      | some r => some r
      | none =>
        match matchCall ['v', 'a', 'r'] false (c :: t) with
        | some r => some r
        | none =>
          match matchCall
              ['l','i','n','e','a','r','-','g','r','a','d','i','e','n','t'] false (c :: t) with
          | some r => some r
          | none =>
            let leftOk := match prev with
              | none => true
              | some p => !isWordCh p
            if leftOk && isLowAlpha c then
              let run := (c :: t).takeWhile isLowAlpha
              let rest := (c :: t).dropWhile isLowAlpha
              let rightOk := match rest with
                | [] => true
                | d :: _ => !isWordCh d
              if rightOk then some (run, rest) else none
            else none

/-- Model of re.findall with the color regex: scan left to right, taking
the leftmost match, continuing right after each match. -/
def findallColorsAux : Nat → Option Char → List Char → List String
  | 0, _, _ => []
  | _, _, [] => []
  | Nat.succ fuel, prev, c :: t =>
    match matchColorToken prev (c :: t) with
    | some (tok, rest) => String.mk tok :: findallColorsAux fuel (tok.getLastD c) rest
    | none => findallColorsAux fuel (some c) t

/-- All color tokens of a declaration value. -/
def findallColors (l : List Char) : List String :=
  findallColorsAux (l.length + 1) none l

/-- Remove every quote character, model of re.sub on quotes (line 501). -/
def removeQuotes (s : String) : String :=
  String.mk (s.data.filter (fun c => c ≠ '"' ∧ c ≠ quoteCh))

/-- Fold of the tinycss2 declaration loop (lines 478-508) collecting, in
insertion order, the color tokens, the cleaned font values and the cursor
url arguments, together with the gradient flag. -/
def cssDeclProps (decls : List (String × String)) :
    List String × List String × List String × Bool :=
  decls.foldl (fun st nv =>
    let name := nv.1
    let value := nv.2
    let colors1 :=
      if hasSubS name "background" || hasSubS name "color" || hasSubS name "border" then
        st.1 ++ findallColors value.data
      else st.1
    let grad1 :=
      if hasSubS name "background" || hasSubS name "color" || hasSubS name "border" then
        st.2.2.2 || hasSubS value "gradient("
      else st.2.2.2
    let fonts1 :=
      if hasSubS name "font-family" || name = "font" then
        st.2.1 ++ [trimS (removeQuotes value)]
      else st.2.1
    let cursors1 :=
      if hasSubS name "cursor" && hasSubS value "url(" then
        match getUrlArg value.data with
        | some u => st.2.2.1 ++ [trimS u]
        | none => st.2.2.1
      else st.2.2.1
    (colors1, fonts1, cursors1, grad1)) ([], [], [], false)

/-- The insertion-order property lists of a whole stylesheet: strip the
comments, scan the qualified rules, parse each declaration list and run
the declaration loop over all declarations in order. -/
def rawCssProps (css_text : String) : List String × List String × List String × Bool :=
  cssDeclProps (((rulesOf (stripCssComments css_text.data)).map declsOf).flatten)

/-- Python builds the colors, fonts and cursors collections as hash sets
and returns list(set); a set enumeration is any function that returns the
elements without duplicates in an unspecified order.  This predicate is
what Python guarantees about list(set(l)). -/
def IsSetEnum (f : List String → List String) : Prop :=
  ∀ l, (f l).Nodup ∧ ∀ x, x ∈ f l ↔ x ∈ l

/-- Model of parse_css_for_properties_combined (lines 466-529),
parameterized by the set enumeration the Python runtime happens to use. -/
def parse_css_for_properties_combined (setEnum : List String → List String)
    (css_text : String) : List String × List String × List String × Bool :=
  let raw := rawCssProps css_text
  (setEnum raw.1, setEnum raw.2.1, setEnum raw.2.2.1, raw.2.2.2)

/-- The fixed font vocabulary of line 569. -/
def fontKeywords : List String :=
  ["comic", "courier", "times", "arial", "verdana", "georgia",
   "monospace", "serif", "sans-serif"]

/-- Strip the given characters from both ends, model of str.strip(chars). -/
def stripCharsEnds (bad : List Char) (s : String) : String :=
  String.mk (((s.data.dropWhile (fun c => c ∈ bad)).reverse.dropWhile
    (fun c => c ∈ bad)).reverse)

/-- Model of detect_font_family (lines 566-574): first keyword contained in
the joined lowercased font list, else the first comma segment of the first
font value, stripped of whitespace and quotes. -/
def detect_font_family (font_list : List String) : String :=
  match font_list with
  | [] => ""
  | f0 :: _ =>
    let joined := lowerStr (joinSep " " font_list)
    match fontKeywords.find? (fun k => hasSubS joined k) with
    | some k => k
    | none =>
      stripCharsEnds [quoteCh, '"'] (trimS (String.mk (f0.data.takeWhile (fun c => c ≠ ','))))

/-- The combined CSS text of extract_basic_styles (lines 540-562): inline
style attributes, style blocks and successfully fetched external sheets,
joined with newlines. -/
def cssAllOf (inline styleBlocks fetched : List String) : String :=
  joinSep "\n" (inline ++ styleBlocks ++ fetched)

/-- Model of extract_basic_styles (lines 532-579).  The external sheets are
given as the list of css texts that were fetched successfully (failures
are silently skipped by the source, so they simply do not appear).
Returns (bg_colors, font_family, cursor_custom, font_list, cursor_links,
has_gradients). -/
def extract_basic_styles (setEnum : List String → List String)
    (inline styleBlocks fetched : List String) :
    List String × String × Bool × List String × List String × Bool :=
  let css_all := cssAllOf inline styleBlocks fetched
  let parsed := parse_css_for_properties_combined setEnum css_all
  let font_family := detect_font_family parsed.2.1
  let cursor_custom := decide (0 < parsed.2.2.1.length) || hasSubS css_all "cursor:"
  (parsed.1, font_family, cursor_custom, parsed.2.1, parsed.2.2.1, parsed.2.2.2)

/-- Claim C10: the cursor_custom flag is true exactly when at least one
cursor url argument was collected or the combined CSS text contains the
substring cursor followed by a colon (line 577); in particular a
stylesheet declaring only cursor: pointer makes cursor_custom true while
cursor_links stays empty. -/
theorem extract_basic_styles_cursor_custom (setEnum : List String → List String)
    (inline styleBlocks fetched : List String) :
    ((extract_basic_styles setEnum inline styleBlocks fetched).2.2.1 = true ↔
      ((extract_basic_styles setEnum inline styleBlocks fetched).2.2.2.2.1 ≠ [] ∨
        hasSubS (cssAllOf inline styleBlocks fetched) "cursor:" = true)) ∧
    (extract_basic_styles dedupKeepFirst [] ["body\x7bcursor: pointer\x7d"] []).2.2.1 = true ∧
    (extract_basic_styles dedupKeepFirst [] ["body\x7bcursor: pointer\x7d"] []).2.2.2.2.1 = [] := by
  refine ⟨?_, rfl, rfl⟩
  simp [extract_basic_styles, List.length_pos]

/-- Fact used throughout: first-seen deduplication is a legal Python set
enumeration (no duplicates, same membership). -/
theorem dedupKeepFirst_isSetEnum : IsSetEnum dedupKeepFirst :=
  fun l => ⟨dedupKeepFirst_nodup l, fun x => mem_dedupKeepFirst l x⟩

/-- The reverse of the first-seen deduplication: also a legal Python set
enumeration, since Python guarantees nothing about hash-set iteration
order for strings (it even varies between runs under hash
randomization). -/
def revSetEnum (l : List String) : List String := (dedupKeepFirst l).reverse

theorem revSetEnum_isSetEnum : IsSetEnum revSetEnum := by
  intro l
  constructor
  · simpa [revSetEnum] using (dedupKeepFirst_nodup l)
  · intro x
    simp [revSetEnum, mem_dedupKeepFirst]

/-- Claim C8 counterexample: the claim says every set-valued field,
including cursor_links, preserves first-seen order.  The cursor, color and
font collections are Python hash sets and list(set(...)) may enumerate
them in any order; under the legal enumeration revSetEnum (see
revSetEnum_isSetEnum) a stylesheet declaring cursor urls a.cur then b.cur
yields cursor_links in the reverse of first-seen order. -/
theorem setvalued_order_counterexample :
    (rawCssProps "a\x7bcursor:url(a.cur)\x7d b\x7bcursor:url(b.cur)\x7d").2.2.1 =
      ["a.cur", "b.cur"] ∧
    (parse_css_for_properties_combined revSetEnum
      "a\x7bcursor:url(a.cur)\x7d b\x7bcursor:url(b.cur)\x7d").2.2.1 = ["b.cur", "a.cur"] ∧
    ¬ ((parse_css_for_properties_combined revSetEnum
        "a\x7bcursor:url(a.cur)\x7d b\x7bcursor:url(b.cur)\x7d").2.2.1.Pairwise
      (fun a b =>
        (rawCssProps "a\x7bcursor:url(a.cur)\x7d b\x7bcursor:url(b.cur)\x7d").2.2.1.indexOf a <
        (rawCssProps "a\x7bcursor:url(a.cur)\x7d b\x7bcursor:url(b.cur)\x7d").2.2.1.indexOf b)) := by
  refine ⟨rfl, rfl, ?_⟩
  decide

/-- Claim C8 amended: the media fields gifs, buttons, blinkies and sounds
are deduplicated by exact string equality and keep first-seen order
(stated as: no duplicates, same membership as the pre-deduplication list,
and pairwise increasing first-occurrence indexes); re-running these pure
extractions yields the same lists.  The style fields background_colors,
font_list and cursor_links are duplicate-free with the same membership as
their insertion-order lists, but their order is whatever the hash-set
enumeration happens to be, so first-seen order is not guaranteed for
them. -/
theorem setvalued_fields_amended (doc : MediaDoc) (base : String)
    (probe : String → Option (Int × Int)) (setEnum : List String → List String)
    (henum : IsSetEnum setEnum) (css : String) :
    ((find_gifs doc base).Nodup ∧
      (∀ x, x ∈ find_gifs doc base ↔ x ∈ rawGifs doc base) ∧
      (find_gifs doc base).Pairwise
        (fun a b => (rawGifs doc base).indexOf a < (rawGifs doc base).indexOf b)) ∧
    ((find_buttons_and_blinkies doc base probe).1.Nodup ∧
      (∀ x, x ∈ (find_buttons_and_blinkies doc base probe).1 ↔
        x ∈ (rawButtonsBlinkies doc base probe).1) ∧
      (find_buttons_and_blinkies doc base probe).1.Pairwise
        (fun a b => (rawButtonsBlinkies doc base probe).1.indexOf a <
          (rawButtonsBlinkies doc base probe).1.indexOf b)) ∧
    ((find_buttons_and_blinkies doc base probe).2.Nodup ∧
      (∀ x, x ∈ (find_buttons_and_blinkies doc base probe).2 ↔
        x ∈ (rawButtonsBlinkies doc base probe).2) ∧
      (find_buttons_and_blinkies doc base probe).2.Pairwise
        (fun a b => (rawButtonsBlinkies doc base probe).2.indexOf a <
          (rawButtonsBlinkies doc base probe).2.indexOf b)) ∧
    ((find_sounds doc base).Nodup ∧
      (∀ x, x ∈ find_sounds doc base ↔ x ∈ rawSounds doc base) ∧
      (find_sounds doc base).Pairwise
        (fun a b => (rawSounds doc base).indexOf a < (rawSounds doc base).indexOf b)) ∧
    ((parse_css_for_properties_combined setEnum css).1.Nodup ∧
      (∀ x, x ∈ (parse_css_for_properties_combined setEnum css).1 ↔
        x ∈ (rawCssProps css).1)) ∧
    ((parse_css_for_properties_combined setEnum css).2.1.Nodup ∧
      (∀ x, x ∈ (parse_css_for_properties_combined setEnum css).2.1 ↔
        x ∈ (rawCssProps css).2.1)) ∧
    ((parse_css_for_properties_combined setEnum css).2.2.1.Nodup ∧
      (∀ x, x ∈ (parse_css_for_properties_combined setEnum css).2.2.1 ↔
        x ∈ (rawCssProps css).2.2.1)) := by
  refine ⟨⟨dedupKeepFirst_nodup _, fun x => mem_dedupKeepFirst _ _, dedupKeepFirst_pairwise _⟩,
    ⟨dedupKeepFirst_nodup _, fun x => mem_dedupKeepFirst _ _, dedupKeepFirst_pairwise _⟩,
    ⟨dedupKeepFirst_nodup _, fun x => mem_dedupKeepFirst _ _, dedupKeepFirst_pairwise _⟩,
    ⟨dedupKeepFirst_nodup _, fun x => mem_dedupKeepFirst _ _, dedupKeepFirst_pairwise _⟩,
    ⟨(henum _).1, (henum _).2⟩, ⟨(henum _).1, (henum _).2⟩, ⟨(henum _).1, (henum _).2⟩⟩

/-- Witness for the amended C8 at a concrete document with a duplicated
gif and a stylesheet with two cursor declarations, using the first-seen
enumeration. -/
theorem setvalued_fields_amended_witness :
    (find_gifs ⟨[⟨"a.gif", none, none, none, none⟩, ⟨"a.gif", none, none, none, none⟩,
        ⟨"b.gif", none, none, none, none⟩], [], []⟩ "http://e.com").Nodup ∧
    (parse_css_for_properties_combined dedupKeepFirst
      "a\x7bcursor:url(a.cur)\x7d b\x7bcursor:url(b.cur)\x7d").2.2.1.Nodup ∧
    find_gifs ⟨[⟨"a.gif", none, none, none, none⟩, ⟨"a.gif", none, none, none, none⟩,
        ⟨"b.gif", none, none, none, none⟩], [], []⟩ "http://e.com" =
      ["http://e.com/a.gif", "http://e.com/b.gif"] := by
  have h := setvalued_fields_amended
    ⟨[⟨"a.gif", none, none, none, none⟩, ⟨"a.gif", none, none, none, none⟩,
      ⟨"b.gif", none, none, none, none⟩], [], []⟩ "http://e.com" (fun _ => none)
    dedupKeepFirst dedupKeepFirst_isSetEnum
    "a\x7bcursor:url(a.cur)\x7d b\x7bcursor:url(b.cur)\x7d"
  exact ⟨h.1.1, h.2.2.2.2.2.2.1, rfl⟩

/-! ## Palette extraction (visualscraper_v2.py, extract_colors lines 67-82) -/

/-- Lowercase hex digit of a value below 16. -/
def hexDigitCh (n : Nat) : Char :=
  if n < 10 then Char.ofNat (48 + n) else Char.ofNat (87 + n)

/-- Two lowercase hex digits, model of the %02x format for byte values. -/
def hexPad2 (n : Nat) : List Char := [hexDigitCh (n / 16 % 16), hexDigitCh (n % 16)]

/-- One palette color in the hash-hex format of line 81. -/
def rgbHex (c : Nat × Nat × Nat) : String :=
  String.mk ('#' :: (hexPad2 c.1 ++ hexPad2 c.2.1 ++ hexPad2 c.2.2))

/-- Model of np.bincount: occurrence counts of 0 up to the maximum value
present; the empty input gives an empty count array. -/
def npBincount (l : List Nat) : List Nat :=
  if l.isEmpty then []
  else (List.range (l.foldr max 0 + 1)).map (fun i => l.count i)

/-- Model of extract_colors (lines 67-82).  The image, already resized to
150 by 150 and flattened to a pixel list, and the sklearn KMeans routine
are both external: kmeans is an oracle yielding the cluster centers (after
the astype(int) truncation) and the per-pixel labels.  Returns the hex
color list and the proportion list counts / counts.sum(). -/
def extract_colors
    (kmeans : List (Nat × Nat × Nat) → Nat → List (Nat × Nat × Nat) × List Nat)
    (img_small : List (Nat × Nat × Nat)) (n_colors : Nat) : List String × List Rat :=
  let km := kmeans img_small n_colors
  let counts := npBincount km.2
  let totalQ : Rat := (counts.sum : Rat)
  (km.1.map rgbHex, counts.map (fun (c : Nat) => (c : Rat) / totalQ))

/-- What sklearn guarantees about KMeans(n_clusters=n) for a positive
cluster count: n cluster centers, one label per pixel, every label below
n.  Nothing is guaranteed about which labels actually occur; a cluster may
end up empty. -/
def IsKMeans
    (f : List (Nat × Nat × Nat) → Nat → List (Nat × Nat × Nat) × List Nat) : Prop :=
  ∀ px n, 0 < n → (f px n).1.length = n ∧ (f px n).2.length = px.length ∧
    ∀ l ∈ (f px n).2, l < n

theorem sum_map_add_nat (f g : Nat → Nat) (l : List Nat) :
    (l.map (fun i => f i + g i)).sum = (l.map f).sum + (l.map g).sum := by
  induction l with
  | nil => simp
  | cons x xs ih => simp [ih]; omega

theorem sum_map_indicator (x : Nat) (l : List Nat) (hnd : l.Nodup) (hx : x ∈ l) :
    (l.map (fun i => if i = x then (1 : Nat) else 0)).sum = 1 := by
  induction l with
  | nil => simp at hx
  | cons y ys ih =>
    rcases List.mem_cons.mp hx with rfl | hmem
    · have hnot : x ∉ ys := (List.nodup_cons.mp hnd).1
      have : (ys.map (fun i => if i = x then (1 : Nat) else 0)).sum = 0 := by
        apply List.sum_eq_zero
        intro a ha
        rcases List.mem_map.mp ha with ⟨i, hi, rfl⟩
        have hix : i ≠ x := by rintro rfl; exact hnot hi
        simp [hix]
      simp [this]
    · have hyx : y ≠ x := by
        rintro rfl
        exact (List.nodup_cons.mp hnd).1 hmem
      simp [hyx, ih (List.nodup_cons.mp hnd).2 hmem]

theorem sum_range_count (k : Nat) (l : List Nat) (h : ∀ x ∈ l, x < k) :
    ((List.range k).map (fun i => l.count i)).sum = l.length := by
  induction l with
  | nil => simp
  | cons x xs ih =>
    have hx : x < k := h x (List.mem_cons_self _ _)
    have ihh := ih (fun y hy => h y (List.mem_cons_of_mem _ hy))
    have hcnt : ∀ i : Nat, (x :: xs).count i = xs.count i + (if i = x then 1 else 0) := by
      intro i
      by_cases hix : i = x
      · subst hix; simp [List.count_cons]
      · have hxi : ¬ (x = i) := fun hc => hix hc.symm
        simp [List.count_cons, hix, hxi]
    calc ((List.range k).map (fun i => (x :: xs).count i)).sum
        = ((List.range k).map (fun i => xs.count i + (if i = x then 1 else 0))).sum := by
          congr 1
          apply List.map_congr_left
          intro i _
          exact hcnt i
      _ = ((List.range k).map (fun i => xs.count i)).sum +
          ((List.range k).map (fun i => if i = x then 1 else 0)).sum :=
          sum_map_add_nat _ _ _
      _ = xs.length + 1 := by
          rw [ihh, sum_map_indicator x (List.range k) (List.nodup_range k)
            (List.mem_range.mpr hx)]
      _ = (x :: xs).length := by simp

theorem le_foldr_max (l : List Nat) (x : Nat) (hx : x ∈ l) : x ≤ l.foldr max 0 := by
  induction l with
  | nil => simp at hx
  | cons y ys ih =>
    rcases List.mem_cons.mp hx with rfl | hmem
    · exact le_max_left _ _
    · exact le_trans (ih hmem) (le_max_right _ _)

theorem foldr_max_le (l : List Nat) (m : Nat) (h : ∀ x ∈ l, x ≤ m) :
    l.foldr max 0 ≤ m := by
  induction l with
  | nil => simp
  | cons y ys ih =>
    exact max_le (h y (List.mem_cons_self _ _))
      (ih (fun x hx => h x (List.mem_cons_of_mem _ hx)))

theorem sum_map_div_rat (l : List Nat) (T : Rat) :
    (l.map (fun (c : Nat) => (c : Rat) / T)).sum = ((l.sum : Rat)) / T := by
  induction l with
  | nil => simp
  | cons x xs ih =>
    simp only [List.map_cons, List.sum_cons, ih]
    push_cast
    rw [add_div]

/-- Claim C5 amended: extract_colors always returns exactly n hex color
entries and proportions that sum exactly to 1, but the proportion list has
length max(labels)+1, which equals n only when the last cluster label n-1
actually occurs; an empty trailing cluster makes the proportion list
shorter than the color list. -/
theorem extract_colors_amended
    (kmeans : List (Nat × Nat × Nat) → Nat → List (Nat × Nat × Nat) × List Nat)
    (img : List (Nat × Nat × Nat)) (n : Nat)
    (hk : IsKMeans kmeans) (hn : 0 < n) (hne : img ≠ []) :
    (extract_colors kmeans img n).1.length = n ∧
    (extract_colors kmeans img n).2.sum = 1 ∧
    ((n - 1) ∈ (kmeans img n).2 → (extract_colors kmeans img n).2.length = n) := by
  obtain ⟨hc, hl, hlab⟩ := hk img n hn
  have hlne : (kmeans img n).2 ≠ [] := by
    intro hc0
    rw [hc0] at hl
    exact hne (List.length_eq_zero.mp hl.symm)
  have hmaxlt : ∀ x ∈ (kmeans img n).2, x < (kmeans img n).2.foldr max 0 + 1 :=
    fun x hx => Nat.lt_succ_of_le (le_foldr_max _ x hx)
  have hbc : npBincount (kmeans img n).2 =
      (List.range ((kmeans img n).2.foldr max 0 + 1)).map
        (fun i => (kmeans img n).2.count i) := by
    rw [npBincount, if_neg]
    simpa [List.isEmpty_iff] using hlne
  have hsum : (npBincount (kmeans img n).2).sum = (kmeans img n).2.length := by
    rw [hbc]
    exact sum_range_count _ _ hmaxlt
  have hlen0 : (kmeans img n).2.length ≠ 0 := fun hc0 => hlne (List.length_eq_zero.mp hc0)
  refine ⟨?_, ?_, ?_⟩
  · simp [extract_colors, hc]
  · show ((npBincount (kmeans img n).2).map
      (fun (c : Nat) => (c : Rat) / ((npBincount (kmeans img n).2).sum : Rat))).sum = 1
    rw [sum_map_div_rat, hsum]
    exact div_self (by exact_mod_cast hlen0)
  · intro hmem
    have h1 : n - 1 ≤ (kmeans img n).2.foldr max 0 := le_foldr_max _ _ hmem
    have h2 : (kmeans img n).2.foldr max 0 ≤ n - 1 :=
      foldr_max_le _ _ (fun x hx => Nat.le_sub_one_of_lt (hlab x hx))
    have hmax : (kmeans img n).2.foldr max 0 = n - 1 := le_antisymm h2 h1
    show ((npBincount (kmeans img n).2).map
      (fun (c : Nat) => (c : Rat) / ((npBincount (kmeans img n).2).sum : Rat))).length = n
    rw [List.length_map, hbc, List.length_map, List.length_range, hmax]
    omega

/-- The k-means outcome sklearn produces for a monochrome image: all
pixels identical makes every centroid identical and the distance argmin
ties break to index 0, so every pixel gets label 0 while n centers are
still returned. -/
def kmeansMono : List (Nat × Nat × Nat) → Nat → List (Nat × Nat × Nat) × List Nat :=
  fun px n => (List.replicate n (0, 0, 0), List.replicate px.length 0)

/-- A solid-black screenshot resized to 150 by 150. -/
def monoPixels : List (Nat × Nat × Nat) := List.replicate 22500 (0, 0, 0)

theorem foldr_max_replicate_zero (k : Nat) :
    (List.replicate k (0 : Nat)).foldr max 0 = 0 := by
  induction k with
  | zero => rfl
  | succ k ih => simp [List.replicate_succ, ih]

/-- The proportions component of extract_colors, written out. -/
theorem extract_colors_snd
    (kmeans : List (Nat × Nat × Nat) → Nat → List (Nat × Nat × Nat) × List Nat)
    (img : List (Nat × Nat × Nat)) (n : Nat) :
    (extract_colors kmeans img n).2 = (npBincount (kmeans img n).2).map
      (fun (c : Nat) => (c : Rat) / ((npBincount (kmeans img n).2).sum : Rat)) := rfl

/-- The second component of kmeansMono is one zero label per pixel. -/
theorem kmeansMono_snd (px : List (Nat × Nat × Nat)) (n : Nat) :
    (kmeansMono px n).2 = List.replicate px.length 0 := rfl

/-- Claim C5 counterexample: for the monochrome 150x150 image, n = 5
requested colors and the k-means outcome kmeansMono (all labels 0, five
identical centers), extract_colors returns 5 hex entries but only a
single proportion, because np.bincount stops at the largest occurring
label: the two sequences do not have the same length. -/
theorem extract_colors_counterexample :
    (kmeansMono monoPixels 5).1.length = 5 ∧
    (kmeansMono monoPixels 5).2.length = monoPixels.length ∧
    (extract_colors kmeansMono monoPixels 5).1.length = 5 ∧
    (extract_colors kmeansMono monoPixels 5).2 = [1] ∧
    (extract_colors kmeansMono monoPixels 5).2.length ≠
      (extract_colors kmeansMono monoPixels 5).1.length := by
  have hemp : ¬ ((List.replicate 22500 (0 : Nat)).isEmpty = true) := by decide
  have hr1 : List.range 1 = [0] := rfl
  have hb : npBincount (List.replicate 22500 (0 : Nat)) = [22500] := by
    rw [npBincount, if_neg hemp, foldr_max_replicate_zero, Nat.zero_add, hr1,
      List.map_cons, List.map_nil, List.count_replicate_self]
  have hlen : monoPixels.length = 22500 := List.length_replicate _ _
  have h2 : (kmeansMono monoPixels 5).2 = List.replicate 22500 (0 : Nat) := by
    rw [kmeansMono_snd, hlen]
  have c2 : (kmeansMono monoPixels 5).2.length = monoPixels.length := by
    rw [h2, List.length_replicate, hlen]
  have c3 : (extract_colors kmeansMono monoPixels 5).1.length = 5 := rfl
  have c4 : (extract_colors kmeansMono monoPixels 5).2 = [1] := by
    rw [extract_colors_snd, h2, hb, List.map_cons, List.map_nil, List.sum_cons,
      List.sum_nil]
    norm_num
  refine ⟨rfl, c2, c3, c4, ?_⟩
  rw [c4, c3]
  decide

/-- A legal k-means oracle every one of whose clusters except the last is
empty: every pixel is labelled n-1. -/
def kmeansLast : List (Nat × Nat × Nat) → Nat → List (Nat × Nat × Nat) × List Nat :=
  fun px n => (List.replicate n (0, 0, 0), px.map (fun _ => n - 1))

theorem kmeansLast_isKMeans : IsKMeans kmeansLast := by
  intro px n hn
  refine ⟨by simp [kmeansLast], by simp [kmeansLast], ?_⟩
  intro l hl
  simp only [kmeansLast, List.mem_map] at hl
  obtain ⟨_, _, rfl⟩ := hl
  omega

/-- Witness for the amended C5 at a one-pixel image, three clusters and
the kmeansLast oracle, whose label 2 makes all three lengths agree. -/
theorem extract_colors_amended_witness :
    (extract_colors kmeansLast [(5, 5, 5)] 3).1.length = 3 ∧
    (extract_colors kmeansLast [(5, 5, 5)] 3).2.sum = 1 ∧
    (extract_colors kmeansLast [(5, 5, 5)] 3).2.length = 3 := by
  have h := extract_colors_amended kmeansLast [(5, 5, 5)] 3 kmeansLast_isKMeans
    (by decide) (by decide)
  exact ⟨h.1, h.2.1, h.2.2 (by decide)⟩

/-! ## Timestamp canonicalization (webscraper_v7.py, lines 160-236)

format_datetime_iso tries datetime.fromisoformat on the input with Z
replaced by +00:00, then email.utils.parsedate_to_datetime, converts the
result to UTC and formats it with strftime.  The embedding models the
documented fromisoformat grammar YYYY-MM-DD[*HH[:MM[:SS[.fff[fff]]]]]
[+HH:MM] and transcribes the CPython _parsedate_tz algorithm; the
datetime constructor validation (field ranges, years 1-9999, timezone
offsets strictly below one day) is mkPyDateTime. -/

/-- A Python datetime as far as the scraper uses it: civil fields plus an
optional UTC offset in minutes (None models a naive datetime). -/
structure PyDateTime where
  year : Nat
  month : Nat
  day : Nat
  hour : Nat
  minute : Nat
  second : Nat
  tzMinutes : Option Int
deriving Repr, DecidableEq

/-- Gregorian leap year test. -/
def isLeapYear (y : Nat) : Bool := (y % 4 = 0 && y % 100 ≠ 0) || y % 400 = 0

/-- Days in a month of a given year. -/
def daysInMonth (y m : Nat) : Nat :=
  if m = 2 then (if isLeapYear y then 29 else 28)
  else if m = 4 ∨ m = 6 ∨ m = 9 ∨ m = 11 then 30 else 31

/-- A timezone offset datetime.timezone accepts: strictly inside one day. -/
def tzOkB : Option Int → Bool
  | none => true
  | some o => decide (-1440 < o) && decide (o < 1440)

/-- The validation the datetime constructor and datetime.timezone perform:
year 1-9999, month and day in range, time fields in range, offset strictly
inside one day. -/
def mkPyDateTime (y mo d h mi s : Int) (tz : Option Int) : Option PyDateTime :=
  if 1 ≤ y ∧ y ≤ 9999 ∧ 1 ≤ mo ∧ mo ≤ 12 ∧ 1 ≤ d ∧
      d ≤ (daysInMonth y.toNat mo.toNat : Int) ∧ 0 ≤ h ∧ h ≤ 23 ∧ 0 ≤ mi ∧ mi ≤ 59 ∧
      0 ≤ s ∧ s ≤ 59 ∧ tzOkB tz = true then
    some ⟨y.toNat, mo.toNat, d.toNat, h.toNat, mi.toNat, s.toNat, tz⟩
  else none

/-- Days from 0001-01-01 to the given civil date (year at least 1). -/
def daysFromCivil (y mo d : Nat) : Nat :=
  let y' := if mo ≤ 2 then y - 1 else y
  let era := y' / 400
  let yoe := y' % 400
  let mp := (mo + 9) % 12
  let doy := (153 * mp + 2) / 5 + d - 1
  let doe := yoe * 365 + yoe / 4 - yoe / 100 + doy
  era * 146097 + doe - 306

/-- Civil date from a day count since 0001-01-01. -/
def civilFromDays (z : Nat) : Nat × Nat × Nat :=
  let z' := z + 306
  let era := z' / 146097
  let doe := z' % 146097
  let yoe := (doe - doe / 1460 + doe / 36524 - doe / 146096) / 365
  let y := yoe + era * 400
  let doy := doe - (365 * yoe + yoe / 4 - yoe / 100)
  let mp := (5 * doy + 2) / 153
  let d := doy - (153 * mp + 2) / 5 + 1
  let mo := if mp < 10 then mp + 3 else mp - 9
  (if mo ≤ 2 then y + 1 else y, mo, d)

/-- The day count of 10000-01-01, one past the datetime range. -/
def maxPyDays : Nat := daysFromCivil 10000 1 1

/-- Model of datetime.astimezone(timezone.utc): a naive datetime just gets
the UTC tzinfo attached (replace, line 193), an aware one is shifted by
its offset (line 191), raising OverflowError when the result leaves the
year range 1-9999. -/
def toUtc (dt : PyDateTime) : Option PyDateTime :=
  match dt.tzMinutes with
  | none => some { dt with tzMinutes := some 0 }
  | some off =>
    let total : Int := (daysFromCivil dt.year dt.month dt.day : Int) * 1440 +
      dt.hour * 60 + dt.minute - off
    if total < 0 ∨ (maxPyDays : Int) * 1440 ≤ total then none
    else
      let tn := total.toNat
      let c := civilFromDays (tn / 1440)
      some ⟨c.1, c.2.1, c.2.2, tn % 1440 / 60, tn % 60, dt.second, some 0⟩

/-- Decimal digit character of n modulo 10. -/
def digitCh : Nat → Char
  | 0 => '0' | 1 => '1' | 2 => '2' | 3 => '3' | 4 => '4'
  | 5 => '5' | 6 => '6' | 7 => '7' | 8 => '8' | 9 => '9'
  | _ => '0'

/-- Two-digit zero-padded decimal rendering, model of strftime %d %m %H %M. -/
def twoDig (n : Nat) : List Char := [digitCh (n / 10 % 10), digitCh (n % 10)]

/-- Four-digit zero-padded decimal rendering, model of strftime %Y for the
validated year range 1-9999. -/
def fourDig (n : Nat) : List Char :=
  [digitCh (n / 1000 % 10), digitCh (n / 100 % 10), digitCh (n / 10 % 10), digitCh (n % 10)]

/-- The strftime output of line 197 or 199. -/
def fmtChars (dt : PyDateTime) (include_gmt : Bool) : List Char :=
  twoDig dt.day ++ '/' :: twoDig dt.month ++ '/' :: fourDig dt.year ++
    ' ' :: twoDig dt.hour ++ ':' :: twoDig dt.minute ++
    (if include_gmt then [' ', 'G', 'M', 'T'] else [])

/-- Read exactly two digits. -/
def digit2 : List Char → Option (Nat × List Char)
  | a :: b :: rest =>
    if isDigitCh a && isDigitCh b then some (digitValCh a * 10 + digitValCh b, rest)
    else none
  | _ => none

/-- Consume an optional fraction of exactly three or six digits. -/
def parseFrac : List Char → Option (List Char)
  | '.' :: rest =>
    let ds := rest.takeWhile isDigitCh
    if ds.length = 3 ∨ ds.length = 6 then some (rest.drop ds.length) else none
  | l => some l

/-- Parse the optional trailing UTC offset +HH:MM or -HH:MM; the whole
rest of the input must be consumed. -/
def parseIsoTz : List Char → Option (Option Int)
  | [] => some none
  | c :: rest =>
    if c = '+' ∨ c = '-' then
      match digit2 rest with
      | some (hh, r2) =>
        match r2 with
        | ':' :: r3 =>
          match digit2 r3 with
          | some (mm, r4) =>
            if r4 = [] then
              some (some ((if c = '-' then -1 else 1) * ((hh : Int) * 60 + mm)))
            else none
          | none => none
        | _ => none
      | none => none
    else none

/-- Parse the time part HH[:MM[:SS[.fff[fff]]]] plus optional offset. -/
def parseIsoTime (l : List Char) : Option (Nat × Nat × Nat × Option Int) :=
  match digit2 l with
  | none => none
  | some (hh, r1) =>
    match r1 with
    | ':' :: r2 =>
      match digit2 r2 with
      | none => none
      | some (mi, r3) =>
        match r3 with
        | ':' :: r4 =>
          match digit2 r4 with
          | none => none
          | some (ss, r5) =>
            match parseFrac r5 with
            | none => none
            | some r6 => (parseIsoTz r6).map (fun tz => (hh, mi, ss, tz))
        | _ => (parseIsoTz r3).map (fun tz => (hh, mi, 0, tz))
    | _ => (parseIsoTz r1).map (fun tz => (hh, 0, 0, tz))

/-- Model of datetime.fromisoformat: the date YYYY-MM-DD, optionally
followed by one separator character and a time, validated by the datetime
constructor. -/
def isoParse (l : List Char) : Option PyDateTime :=
  match l with
  | y1 :: y2 :: y3 :: y4 :: s1 :: m1 :: m2 :: s2 :: d1 :: d2 :: rest =>
    if s1 = '-' ∧ s2 = '-' ∧ [y1, y2, y3, y4, m1, m2, d1, d2].all isDigitCh then
      let y := natOfDigits [y1, y2, y3, y4]
      let mo := natOfDigits [m1, m2]
      let d := natOfDigits [d1, d2]
      match rest with
      | [] => mkPyDateTime y mo d 0 0 0 none
      | _ :: timeRest =>
        match parseIsoTime timeRest with
        | some (hh, mi, ss, tz) => mkPyDateTime y mo d hh mi ss tz
        | none => none
    else none
  | _ => none

/-- Uppercase every ASCII letter, model of str.upper. -/
def charUpper (c : Char) : Char :=
  if 97 ≤ c.toNat ∧ c.toNat ≤ 122 then Char.ofNat (c.toNat - 32) else c

/-- Uppercase a string. -/
def upperStr (s : String) : String := String.mk (s.data.map charUpper)

/-- Is the last character the given one, model of s[-1] == c on a
nonempty string and of s.endswith(c) for one character. -/
def lastIs (s : String) (c : Char) : Bool := s.data.getLast? = some c

/-- Drop the last character, model of s[:-1]. -/
def dropLastStr (s : String) : String := String.mk s.data.dropLast

/-- Everything after the last comma, model of s[i+1:] with i = s.rfind(yes). -/
def afterLastComma (l : List Char) : List Char :=
  (l.reverse.takeWhile (fun c => c ≠ ',')).reverse

/-- The month name table of email._parseaddr. -/
def rfcMonthnames : List String :=
  ["jan", "feb", "mar", "apr", "may", "jun", "jul",
   "aug", "sep", "oct", "nov", "dec",
   "january", "february", "march", "april", "may", "june", "july",
   "august", "september", "october", "november", "december"]

/-- The day name table of email._parseaddr. -/
def rfcDaynames : List String := ["mon", "tue", "wed", "thu", "fri", "sat", "sun"]

/-- The timezone table of email._parseaddr, offsets in the hour-hundreds
encoding the module uses (-500 means five hours west). -/
def rfcTimezones : List (String × Int) :=
  [("UT", 0), ("UTC", 0), ("GMT", 0), ("Z", 0),
   ("AST", -400), ("ADT", -300), ("EST", -500), ("EDT", -400),
   ("CST", -600), ("CDT", -500), ("MST", -700), ("MDT", -600),
   ("PST", -800), ("PDT", -700)]

/-- First index of a character, -1 when absent, model of str.find. -/
def findCharIdx (l : List Char) (c : Char) : Int :=
  match l.findIdx? (fun d => d = c) with
  | some k => (k : Int)
  | none => -1

/-- The length-four fixup of _parsedate_tz: when the fourth token embeds a
plus or minus sign after its start, split it there; else append an empty
dummy timezone. -/
def rfcFixTz (data : List String) : List String :=
  match data with
  | [a, b, c', s3] =>
    let i := if findCharIdx s3.data '+' = -1 then findCharIdx s3.data '-'
             else findCharIdx s3.data '+'
    if 0 < i then
      [a, b, c', String.mk (s3.data.take i.toNat), String.mk (s3.data.drop i.toNat)]
    else [a, b, c', s3, ""]
  | _ => data

/-- The time-of-day split of _parsedate_tz: split on colons; two or three
pieces are accepted, a single piece containing a dot is split on dots
instead. -/
def rfcSplitTime (tm : String) : Option (String × String × String) :=
  let parts := (splitOnCh ':' tm.data).map String.mk
  match parts with
  | [thh, tmm] => some (thh, tmm, "0")
  | [thh, tmm, tss] => some (thh, tmm, tss)
  | [single] =>
    if single.data.elem '.' then
      match (splitOnCh '.' single.data).map String.mk with
      | [thh, tmm] => some (thh, tmm, "0")
      | [thh, tmm, tss] => some (thh, tmm, tss)
      | _ => none
    else none
  | _ => none

/-- The timezone resolution of _parsedate_tz: table lookup on the
uppercased token, else int conversion, with -0000 mapped to an unknown
zone; the nonzero offsets are converted from the hour-hundreds encoding
to minutes.  none models an unknown timezone (naive result). -/
def rfcResolveTz (tz : String) : Option Int :=
  let tzU := upperStr tz
  let tzoffset : Option Int :=
    match (rfcTimezones.find? (fun p => p.1 = tzU)).map Prod.snd with
    | some v => some v
    | none =>
      match pyInt tzU with
      | some v => if v = 0 ∧ isPreL ['-'] tzU.data then none else some v
      | none => none
  match tzoffset with
  | none => none
  | some v =>
    if v = 0 then some 0
    else some ((if v < 0 then -1 else 1) * ((v.natAbs / 100 : Nat) * 60 + (v.natAbs % 100 : Nat)))

/-- The final stage of _parsedate_tz on the five tokens, followed by the
datetime construction of parsedate_to_datetime. -/
def rfcStep3 : List String → Option PyDateTime
  | [dd0, mm0, yy0, tm0, tz0] =>
    if dd0 = "" ∨ mm0 = "" ∨ yy0 = "" then none
    else
      let mmL := lowerStr mm0
      let p1 := if mmL ∈ rfcMonthnames then (dd0, mmL) else (mmL, lowerStr dd0)
      if p1.2 ∈ rfcMonthnames then
        let mmN0 := rfcMonthnames.indexOf p1.2 + 1
        let mmN := if mmN0 > 12 then mmN0 - 12 else mmN0
        let dd2 := if lastIs p1.1 ',' then dropLastStr p1.1 else p1.1
        let p2 := if 0 < findCharIdx yy0.data ':' then (tm0, yy0) else (yy0, tm0)
        let yy2 := if lastIs p2.1 ',' then dropLastStr p2.1 else p2.1
        if yy2 = "" then none
        else
          let p3 := if ¬ isDigitCh (yy2.data.headD ' ') then (tz0, yy2) else (yy2, tz0)
          if p2.2 = "" then none
          else
            let tm2 := if lastIs p2.2 ',' then dropLastStr p2.2 else p2.2
            match rfcSplitTime tm2 with
            | none => none
            | some (thh, tmm, tss) =>
              match pyInt p3.1, pyInt dd2, pyInt thh, pyInt tmm, pyInt tss with
              | some yyI, some ddI, some hI, some miI, some sI =>
                let yyA := if yyI < 100 then (if yyI > 68 then yyI + 1900 else yyI + 2000)
                           else yyI
                mkPyDateTime yyA (mmN : Int) ddI hI miI sI (rfcResolveTz p3.2)
              | _, _, _, _, _ => none
      else none
  | _ => none

/-- Steps two to four of _parsedate_tz: the deprecated RFC 850 dash split
on three tokens, the timezone fixup on four, then the requirement of five
tokens. -/
def rfcStep2 (data : List String) : Option PyDateTime :=
  let data2 :=
    if data.length = 3 then
      match data with
      | d0 :: rest =>
        let stuff := (splitOnCh '-' d0.data).map String.mk
        if stuff.length = 3 then stuff ++ rest else data
      | [] => data
    else data
  let data3 := if data2.length = 4 then rfcFixTz data2 else data2
  if data3.length < 5 then none else rfcStep3 (data3.take 5)

/-- Step one of _parsedate_tz: drop a leading day name, or cut the first
token at its last comma. -/
def rfcStep1 : List String → Option PyDateTime
  | [] => none
  | d0 :: rest =>
    if lastIs d0 ',' || (lowerStr d0) ∈ rfcDaynames then rfcStep2 rest
    else if d0.data.elem ',' then rfcStep2 (String.mk (afterLastComma d0.data) :: rest)
    else rfcStep2 (d0 :: rest)

/-- Model of email.utils.parsedate_to_datetime via _parsedate_tz. -/
def rfcParse (l : List Char) : Option PyDateTime :=
  rfcStep1 ((splitWs l).map String.mk)

/-- The parse chain of format_datetime_iso (lines 171-184): fromisoformat
on the input with Z replaced by +00:00, then parsedate_to_datetime on the
original input. -/
def parseTimestamp (date_str : String) : Option PyDateTime :=
  match isoParse (replaceSub date_str "Z" "+00:00").data with
  | some dt => some dt
  | none => rfcParse date_str.data

/-- Model of format_datetime_iso (lines 160-199).  An empty input returns
the empty string; an unparseable input is returned unmodified; a parsed
input is converted to UTC (which can raise OverflowError, the error case)
and formatted as DD/MM/YYYY HH:MM with an optional GMT marker. -/
def format_datetime_iso (date_str : String) (include_gmt : Bool) : Except String String :=
  if date_str = "" then Except.ok ""
  else
    match parseTimestamp date_str with
    | none => Except.ok date_str
    | some dt =>
      match toUtc dt with
      | none => Except.error "OverflowError: date value out of range"
      | some u => Except.ok (String.mk (fmtChars u include_gmt))

/-- The JSON the Neocities info API returns, as far as the scraper reads
it. -/
structure NeoApiInfo where
  result : String
  created_at : String := ""
  last_updated : String := ""
  tags : List String := []
deriving Repr, DecidableEq

/-- First candidate metadata value that is present and truthy, model of
the fallback loop of lines 223-234. -/
def firstContent : List (Option String) → Option String
  | [] => none
  | none :: rest => firstContent rest
  | some c :: rest => if c = "" then firstContent rest else some c

/-- Model of get_creation_date (lines 202-236).  The API call is an oracle
(Except.error models a network failure or bad JSON, both caught); the
document is abstracted to the content values of the five creation
candidates in scan order.  An exception inside the API branch falls
through to the metadata scan; an exception in the scan itself propagates
(it would be caught by process_url). -/
def get_creation_date (api : Except String NeoApiInfo) (url : String)
    (docDates : List (Option String)) : Except String String :=
  let host := lowerStr (netlocOf url)
  let fromApi : Option String :=
    if hasSubS host "neocities.org" then
      match api with
      | Except.error _ => none
      | Except.ok js =>
        if js.result = "success" ∧ js.created_at ≠ "" then
          match format_datetime_iso js.created_at true with
          | Except.ok v => some v
          | Except.error _ => none
        else none
    else none
  match fromApi with
  | some v => Except.ok v
  | none =>
    match firstContent docDates with
    | some c => format_datetime_iso c true
    | none => Except.ok ""

/-- Claim C6: timestamp canonicalization accepts ISO-8601 or RFC-2822
input, normalizes it to UTC and formats it as DD/MM/YYYY HH:MM with a
trailing GMT marker when enabled; in particular the RFC-2822 string
Mon, 02 Jan 2021 10:00:00 GMT formats to 02/01/2021 10:00 GMT, and a
Neocities site whose API reports that created_at yields that canonical
string from get_creation_date. -/
theorem format_datetime_scenario
    (api : Except String NeoApiInfo) (js : NeoApiInfo) (docDates : List (Option String))
    (s : String) (dt u : PyDateTime)
    (hapi : api = Except.ok js) (hres : js.result = "success")
    (hcr : js.created_at = "Mon, 02 Jan 2021 10:00:00 GMT")
    (hp : parseTimestamp s = some dt) (hu : toUtc dt = some u) :
    format_datetime_iso "Mon, 02 Jan 2021 10:00:00 GMT" true = Except.ok "02/01/2021 10:00 GMT" ∧
    get_creation_date api "https://foo.neocities.org" docDates = Except.ok "02/01/2021 10:00 GMT" ∧
    format_datetime_iso s true = Except.ok (String.mk (fmtChars u true)) := by
  have h1 : format_datetime_iso "Mon, 02 Jan 2021 10:00:00 GMT" true =
      Except.ok "02/01/2021 10:00 GMT" := rfl
  refine ⟨h1, ?_, ?_⟩
  · subst hapi
    simp only [get_creation_date, hres, hcr, h1]
    rw [if_pos (show hasSubS (lowerStr (netlocOf "https://foo.neocities.org"))
          "neocities.org" = true from rfl),
        if_pos (show True ∧ "Mon, 02 Jan 2021 10:00:00 GMT" ≠ ""
          from ⟨trivial, by decide⟩)]
  · have hs : s ≠ "" := by
      intro h0
      subst h0
      rw [show parseTimestamp "" = none from rfl] at hp
      cases hp
    simp only [format_datetime_iso, if_neg hs, hp, hu]

/-- Witness for C6: the concrete Neocities API scenario and a concrete
ISO input with a Z suffix. -/
theorem format_datetime_scenario_witness :
    format_datetime_iso "Mon, 02 Jan 2021 10:00:00 GMT" true =
      Except.ok "02/01/2021 10:00 GMT" ∧
    get_creation_date (Except.ok ⟨"success", "Mon, 02 Jan 2021 10:00:00 GMT", "", []⟩)
      "https://foo.neocities.org" [] = Except.ok "02/01/2021 10:00 GMT" ∧
    format_datetime_iso "2021-06-05T22:13:09Z" true =
      Except.ok (String.mk (fmtChars ⟨2021, 6, 5, 22, 13, 9, some 0⟩ true)) :=
  format_datetime_scenario _ ⟨"success", "Mon, 02 Jan 2021 10:00:00 GMT", "", []⟩ []
    "2021-06-05T22:13:09Z" ⟨2021, 6, 5, 22, 13, 9, some 0⟩ ⟨2021, 6, 5, 22, 13, 9, some 0⟩
    rfl rfl rfl rfl rfl

theorem digitCh_isDigit (n : Nat) : isDigitCh (digitCh n) = true := by
  rcases n with _|_|_|_|_|_|_|_|_|_|n <;> rfl

theorem char_ne_of_toNat {c d : Char} (h : c.toNat ≠ d.toNat) : c ≠ d :=
  fun he => h (by rw [he])

theorem isDigit_ne {c d : Char} (hc : isDigitCh c = true) (hd : isDigitCh d = false) :
    c ≠ d := by
  intro he
  rw [he, hd] at hc
  cases hc

theorem isDigit_bounds {c : Char} (hc : isDigitCh c = true) :
    48 ≤ c.toNat ∧ c.toNat ≤ 57 := by
  simpa [isDigitCh] using hc

theorem isDigit_notSpace {c : Char} (hc : isDigitCh c = true) : isSpaceCh c = false := by
  obtain ⟨h1, h2⟩ := isDigit_bounds hc
  have hs : c ≠ ' ' := char_ne_of_toNat (by simp; omega)
  have ht : c ≠ '\t' := char_ne_of_toNat (by simp; omega)
  have hn : c ≠ '\n' := char_ne_of_toNat (by simp; omega)
  have hr : c ≠ '\r' := char_ne_of_toNat (by simp; omega)
  simp [isSpaceCh, hs, ht, hn, hr]
  omega

theorem splitWsAcc_nonspace (xs : List Char) :
    ∀ (l' acc : List Char), (∀ c ∈ xs, isSpaceCh c = false) →
    splitWsAcc (xs ++ l') acc = splitWsAcc l' (xs.reverse ++ acc) := by
  induction xs with
  | nil => intro l' acc _; simp
  | cons x t ih =>
    intro l' acc h
    have hx : isSpaceCh x = false := h x (List.mem_cons_self _ _)
    simp only [List.cons_append, splitWsAcc, hx, Bool.false_eq_true, if_false,
      List.append_eq]
    rw [ih l' (x :: acc) (fun c hc => h c (List.mem_cons_of_mem _ hc))]
    simp

theorem splitWsAcc_space_cons (ys acc : List Char) (hacc : acc ≠ []) :
    splitWsAcc (' ' :: ys) acc = acc.reverse :: splitWsAcc ys [] := by
  simp [splitWsAcc, hacc, show isSpaceCh ' ' = true from rfl]

theorem splitWsAcc_nil_acc (acc : List Char) (hacc : acc ≠ []) :
    splitWsAcc [] acc = [acc.reverse] := by
  simp [splitWsAcc, hacc]

theorem fmt_tokens (u : PyDateTime) :
    fmtChars u true =
      (twoDig u.day ++ '/' :: twoDig u.month ++ '/' :: fourDig u.year) ++
      ' ' :: ((twoDig u.hour ++ ':' :: twoDig u.minute) ++ ' ' :: ['G', 'M', 'T']) := by
  simp [fmtChars]

theorem twoDig_nonspace (n : Nat) : ∀ c ∈ twoDig n, isSpaceCh c = false := by
  intro c hc
  simp only [twoDig, List.mem_cons, List.not_mem_nil, or_false] at hc
  rcases hc with rfl | rfl <;> exact isDigit_notSpace (digitCh_isDigit _)

theorem fourDig_nonspace (n : Nat) : ∀ c ∈ fourDig n, isSpaceCh c = false := by
  intro c hc
  simp only [fourDig, List.mem_cons, List.not_mem_nil, or_false] at hc
  rcases hc with rfl | rfl | rfl | rfl <;> exact isDigit_notSpace (digitCh_isDigit _)

theorem tokenA_nonspace (u : PyDateTime) :
    ∀ c ∈ (twoDig u.day ++ '/' :: twoDig u.month ++ '/' :: fourDig u.year),
      isSpaceCh c = false := by
  intro c hc
  rcases List.mem_append.mp hc with h1 | h1
  · rcases List.mem_append.mp h1 with h2 | h2
    · exact twoDig_nonspace _ c h2
    · rcases List.mem_cons.mp h2 with rfl | h3
      · rfl
      · exact twoDig_nonspace _ c h3
  · rcases List.mem_cons.mp h1 with rfl | h2
    · rfl
    · exact fourDig_nonspace _ c h2

theorem tokenB_nonspace (u : PyDateTime) :
    ∀ c ∈ (twoDig u.hour ++ ':' :: twoDig u.minute), isSpaceCh c = false := by
  intro c hc
  rcases List.mem_append.mp hc with h1 | h1
  · exact twoDig_nonspace _ c h1
  · rcases List.mem_cons.mp h1 with rfl | h2
    · rfl
    · exact twoDig_nonspace _ c h2

theorem splitWs_fmt (u : PyDateTime) :
    splitWs (fmtChars u true) =
      [twoDig u.day ++ '/' :: twoDig u.month ++ '/' :: fourDig u.year,
       twoDig u.hour ++ ':' :: twoDig u.minute, ['G', 'M', 'T']] := by
  rw [splitWs, fmt_tokens]
  rw [splitWsAcc_nonspace _ _ _ (tokenA_nonspace u)]
  rw [List.append_nil]
  rw [splitWsAcc_space_cons _ _ (by
    intro hc
    have := congrArg List.length hc
    simp [twoDig, fourDig] at this)]
  rw [List.reverse_reverse]
  rw [splitWsAcc_nonspace _ _ _ (tokenB_nonspace u)]
  rw [List.append_nil]
  rw [splitWsAcc_space_cons _ _ (by
    intro hc
    have := congrArg List.length hc
    simp [twoDig] at this)]
  rw [List.reverse_reverse]
  have hg : splitWsAcc ['G', 'M', 'T'] [] = [['G', 'M', 'T']] := rfl
  rw [hg]

theorem tokenA_chars (u : PyDateTime) :
    ∀ c ∈ (twoDig u.day ++ '/' :: twoDig u.month ++ '/' :: fourDig u.year),
      isDigitCh c = true ∨ c = '/' := by
  intro c hc
  have htwo : ∀ (n : Nat) (d : Char), d ∈ twoDig n → isDigitCh d = true := by
    intro n d hd
    simp only [twoDig, List.mem_cons, List.not_mem_nil, or_false] at hd
    rcases hd with rfl | rfl <;> exact digitCh_isDigit _
  have hfour : ∀ (n : Nat) (d : Char), d ∈ fourDig n → isDigitCh d = true := by
    intro n d hd
    simp only [fourDig, List.mem_cons, List.not_mem_nil, or_false] at hd
    rcases hd with rfl | rfl | rfl | rfl <;> exact digitCh_isDigit _
  rcases List.mem_append.mp hc with h1 | h1
  · rcases List.mem_append.mp h1 with h2 | h2
    · exact Or.inl (htwo _ _ h2)
    · rcases List.mem_cons.mp h2 with rfl | h3
      · exact Or.inr rfl
      · exact Or.inl (htwo _ _ h3)
  · rcases List.mem_cons.mp h1 with rfl | h2
    · exact Or.inr rfl
    · exact Or.inl (hfour _ _ h2)

theorem fmt_chars_classes (u : PyDateTime) :
    ∀ c ∈ fmtChars u true, isDigitCh c = true ∨ c ∈ ['/', ' ', ':', 'G', 'M', 'T'] := by
  intro c hc
  rw [fmt_tokens] at hc
  rcases List.mem_append.mp hc with h1 | h1
  · rcases (tokenA_chars u) c h1 with h | rfl
    · exact Or.inl h
    · exact Or.inr (by simp)
  · rcases List.mem_cons.mp h1 with rfl | h2
    · exact Or.inr (by simp)
    · rcases List.mem_append.mp h2 with h3 | h3
      · rcases List.mem_append.mp h3 with h4 | h4
        · refine Or.inl ?_
          simp only [twoDig, List.mem_cons, List.not_mem_nil, or_false] at h4
          rcases h4 with rfl | rfl <;> exact digitCh_isDigit _
        · rcases List.mem_cons.mp h4 with rfl | h5
          · exact Or.inr (by simp)
          · refine Or.inl ?_
            simp only [twoDig, List.mem_cons, List.not_mem_nil, or_false] at h5
            rcases h5 with rfl | rfl <;> exact digitCh_isDigit _
      · rcases List.mem_cons.mp h3 with rfl | h4
        · exact Or.inr (by simp)
        · refine Or.inr ?_
          simp only [List.mem_cons, List.not_mem_nil, or_false] at h4 ⊢
          rcases h4 with rfl | rfl | rfl <;> simp

theorem fmt_no_Z (u : PyDateTime) : ∀ c ∈ fmtChars u true, c ≠ 'Z' := by
  intro c hc
  rcases fmt_chars_classes u c hc with h | h
  · exact isDigit_ne h (by decide)
  · simp only [List.mem_cons, List.not_mem_nil, or_false] at h
    rcases h with rfl | rfl | rfl | rfl | rfl | rfl <;> decide

theorem replaceSubAux_single_absent (z : Char) (repl : List Char) (l : List Char) :
    ∀ fuel, (∀ c ∈ l, c ≠ z) → replaceSubAux [z] repl fuel l = l := by
  induction l with
  | nil => intro fuel _; cases fuel <;> rfl
  | cons c t ih =>
    intro fuel h
    cases fuel with
    | zero => rfl
    | succ fuel =>
      have hcz : ¬ (z = c) := fun he => (h c (List.mem_cons_self _ _)) he.symm
      rw [replaceSubAux, if_neg]
      · rw [ih fuel (fun d hd => h d (List.mem_cons_of_mem _ hd))]
      · intro hcond
        have := hcond.1
        simp only [isPreL] at this
        rw [Bool.and_eq_true] at this
        exact hcz (by simpa using this.1)

theorem string_mk_data (s : String) : String.mk s.data = s := rfl

theorem replaceZ_fmt (u : PyDateTime) :
    replaceSub (String.mk (fmtChars u true)) "Z" "+00:00" = String.mk (fmtChars u true) := by
  rw [replaceSub]
  congr 1
  exact replaceSubAux_single_absent 'Z' _ _ _ (fmt_no_Z u)

theorem isoParse_fmt_none (u : PyDateTime) : isoParse (fmtChars u true) = none := by
  simp only [fmtChars, twoDig, fourDig, List.cons_append, List.append_assoc,
    List.nil_append, if_true]
  simp only [isoParse]
  rw [if_neg]
  intro hcond
  exact isDigit_ne (digitCh_isDigit (u.month % 10)) (by decide) hcond.1

theorem tokenA_getLast (u : PyDateTime) :
    (twoDig u.day ++ '/' :: twoDig u.month ++ '/' :: fourDig u.year).getLast? =
      some (digitCh (u.year % 10)) := by
  rw [List.getLast?_append_of_ne_nil _ (by simp)]
  rfl

theorem comma_not_in_tokenA (u : PyDateTime) :
    ',' ∉ (twoDig u.day ++ '/' :: twoDig u.month ++ '/' :: fourDig u.year) := by
  intro hm
  rcases tokenA_chars u ',' hm with hd | he
  · exact absurd hd (by decide)
  · exact absurd he (by decide)

theorem dash_not_in_tokenA (u : PyDateTime) :
    '-' ∉ (twoDig u.day ++ '/' :: twoDig u.month ++ '/' :: fourDig u.year) := by
  intro hm
  rcases tokenA_chars u '-' hm with hd | he
  · exact absurd hd (by decide)
  · exact absurd he (by decide)

theorem splitOnCh_not_mem (c : Char) (l : List Char) (h : c ∉ l) :
    splitOnCh c l = [l] := by
  induction l with
  | nil => rfl
  | cons d t ih =>
    have hdc : ¬ (d = c) := fun he => h (he ▸ List.mem_cons_self _ _)
    rw [splitOnCh, if_neg hdc, ih (fun hm => h (List.mem_cons_of_mem _ hm))]

theorem lastIs_tokenA_false (u : PyDateTime) :
    lastIs (String.mk (twoDig u.day ++ '/' :: twoDig u.month ++ '/' :: fourDig u.year))
      ',' = false := by
  simp only [lastIs]
  apply decide_eq_false
  intro h
  rw [tokenA_getLast] at h
  exact isDigit_ne (digitCh_isDigit (u.year % 10)) (by decide) (Option.some.inj h)

theorem dayname_tokenA_false (u : PyDateTime) :
    ¬ ((lowerStr (String.mk (twoDig u.day ++ '/' :: twoDig u.month ++ '/' :: fourDig u.year)))
      ∈ rfcDaynames) := by
  intro hmem
  have hlenA : (lowerStr (String.mk
      (twoDig u.day ++ '/' :: twoDig u.month ++ '/' :: fourDig u.year))).data.length = 10 := by
    simp [lowerStr, twoDig, fourDig]
  simp only [rfcDaynames, List.mem_cons, List.not_mem_nil, or_false] at hmem
  rcases hmem with h | h | h | h | h | h | h <;>
    (rw [h] at hlenA; exact absurd hlenA (by decide))

theorem elem_comma_tokenA_false (u : PyDateTime) :
    (String.mk (twoDig u.day ++ '/' :: twoDig u.month ++ '/' :: fourDig u.year)).data.elem
      ',' = false := by
  rw [Bool.eq_false_iff]
  intro h
  exact comma_not_in_tokenA u (List.elem_iff.mp h)

theorem rfcParse_fmt_none (u : PyDateTime) : rfcParse (fmtChars u true) = none := by
  rw [rfcParse, splitWs_fmt]
  simp only [List.map_cons, List.map_nil]
  simp only [rfcStep1]
  rw [lastIs_tokenA_false, decide_eq_false (dayname_tokenA_false u)]
  simp only [Bool.or_self, Bool.false_eq_true, if_false]
  rw [elem_comma_tokenA_false]
  simp only [Bool.false_eq_true, if_false]
  simp only [rfcStep2]
  rw [splitOnCh_not_mem '-' _ (dash_not_in_tokenA u)]
  simp

/-- Claim C7: timestamp formatting is idempotent on its own output: when
format_datetime_iso returns a string, formatting that string again
returns it unchanged, because the canonical DD/MM/YYYY HH:MM GMT output
parses neither as ISO-8601 nor as RFC-2822; and input that neither parser
accepts is returned unmodified. -/
theorem format_datetime_idempotent (s c : String)
    (h : format_datetime_iso s true = Except.ok c) :
    format_datetime_iso c true = Except.ok c ∧
    (parseTimestamp s = none → format_datetime_iso s true = Except.ok s) := by
  have main : format_datetime_iso c true = Except.ok c := by
    by_cases hs : s = ""
    · subst hs
      rw [show format_datetime_iso "" true = Except.ok "" from rfl] at h
      obtain rfl : "" = c := Except.ok.inj h
      rfl
    · cases hp : parseTimestamp s with
      | none =>
        simp only [format_datetime_iso, if_neg hs, hp] at h
        obtain rfl : s = c := Except.ok.inj h
        simp only [format_datetime_iso, if_neg hs, hp]
      | some dt =>
        cases hu : toUtc dt with
        | none =>
          simp only [format_datetime_iso, if_neg hs, hp, hu] at h
          cases h
        | some u =>
          simp only [format_datetime_iso, if_neg hs, hp, hu] at h
          obtain rfl : String.mk (fmtChars u true) = c := Except.ok.inj h
          have hne : String.mk (fmtChars u true) ≠ "" := by
            intro he
            have hdata : fmtChars u true = [] := congrArg String.data he
            simp [fmtChars, twoDig] at hdata
          have hpt : parseTimestamp (String.mk (fmtChars u true)) = none := by
            rw [parseTimestamp, replaceZ_fmt]
            rw [show (String.mk (fmtChars u true)).data = fmtChars u true from rfl]
            rw [isoParse_fmt_none, rfcParse_fmt_none]
          simp only [format_datetime_iso, if_neg hne, hpt]
  refine ⟨main, fun hp => ?_⟩
  by_cases hs : s = ""
  · subst hs; rfl
  · simp only [format_datetime_iso, if_neg hs, hp]

/-- Witness for C7 at the canonical output of the C6 scenario and at an
unparseable input. -/
theorem format_datetime_idempotent_witness :
    format_datetime_iso "02/01/2021 10:00 GMT" true = Except.ok "02/01/2021 10:00 GMT" ∧
    format_datetime_iso "not a date" true = Except.ok "not a date" := by
  have h := format_datetime_idempotent "Mon, 02 Jan 2021 10:00:00 GMT"
    "02/01/2021 10:00 GMT" rfl
  have h2 := format_datetime_idempotent "not a date" "not a date" rfl
  exact ⟨h.1, h2.2 rfl⟩
